import Mathlib

/-!
Verification of the dependency/call-graph resolution engine of the
`ASTConversionCode_ForDotNetAndAngularJS` repository
(`tools/generate_imports_from_source.py` and
`tools/api_exporter/generate_file_sheets.py`).

The Python sources are shallowly embedded below.  Python `set`s are
modelled as duplicate-free lists built with `listInsert` (insertion
order; membership coincides with the Python set), Python `dict`s as
association lists with first-key lookup and in-place value update
(`upsert`), file reading (`Path.read_text` inside `try/except`) as an
`Option String` input where `none` stands for an unreadable or
undecodable file, and the module globals of
`generate_imports_from_source.py` as explicit parameters.

The regular-expression scans of the sources are embedded through a
small backtracking matcher (`matchR`) over a regex AST (`RE`) that
mirrors Python `re` semantics (leftmost match, greedy/lazy
quantifiers over character classes, word boundaries, alternation with
backtracking, capture groups, `re.finditer` non-overlapping scanning
and `re.sub` deletion).
-/

set_option autoImplicit false

namespace AstConv

/-- Insert an element at the end of a list unless it is already present;
this models `set.add` while keeping a deterministic order. -/
def listInsert {α : Type} [DecidableEq α] (x : α) (l : List α) : List α :=
  if x ∈ l then l else l ++ [x]

/-- First-occurrence deduplication; models `list(dict.fromkeys(...))` and
building a Python `set` from a list. -/
def dedupFirst {α : Type} [DecidableEq α] (l : List α) : List α :=
  l.foldl (fun acc x => listInsert x acc) []

/-- Set union accumulated into a list; models `set.update`. -/
def listUnion {α : Type} [DecidableEq α] (acc : List α) (xs : List α) : List α :=
  xs.foldl (fun a x => listInsert x a) acc

/-- Association-list lookup; models Python `dict.get` / `d[k]` with the
first matching key. -/
def alookup {α : Type} (l : List (String × α)) (k : String) : Option α :=
  (l.find? (fun p => p.1 == k)).map (fun p => p.2)

/-- Association-list lookup with a default; models `dict.get(k, d)`. -/
def alookupD {α : Type} (l : List (String × α)) (k : String) (d : α) : α :=
  (alookup l k).getD d

/-- Update the value of an existing key in place, or append a new binding;
models Python `dict[k] = v`. -/
def upsert (m : List (String × String)) (k v : String) : List (String × String) :=
  if (m.find? (fun p => p.1 == k)).isSome then
    m.map (fun p => if p.1 == k then (k, v) else p)
  else m ++ [(k, v)]

/-- Boolean list-prefix test on characters. -/
def startsList : List Char → List Char → Bool
  | [], _ => true
  | _ :: _, [] => false
  | a :: as, b :: bs => a == b && startsList as bs

/-- Boolean substring test; models Python `needle in haystack`. -/
def substrCharsB : List Char → List Char → Bool
  | n, [] => startsList n []
  | n, h@(_ :: hs) => startsList n h || substrCharsB n hs

/-- Word character, as in the regex class `[A-Za-z0-9_]` / `\w` (ASCII). -/
def isWordB (c : Char) : Bool := c.isAlpha || c.isDigit || c == '_'

/-- Whitespace, as in the regex class `\s` (ASCII). -/
def isWsB (c : Char) : Bool :=
  c == ' ' || c == '\t' || c == '\n' || c == '\r' || c == '\x0b' || c == '\x0c'

/-- Boolean substring test on strings. -/
def substrB (needle hay : String) : Bool :=
  substrCharsB needle.toList hay.toList

/-- Kernel-reducible `str.startswith`: `strStartsWith s pre` is
`s.startswith(pre)`. -/
def strStartsWith (s pre : String) : Bool :=
  startsList pre.toList s.toList

/-- Split a character list on a non-empty separator (fuel-driven so that
the recursion is structural); mirrors `String.splitOn` / `str.split`. -/
def splitSepAux (sep : List Char) : Nat → List Char → List Char → List (List Char)
  | _, acc, [] => [acc.reverse]
  | 0, acc, s => [acc.reverse ++ s]
  | n + 1, acc, s@(c :: rest) =>
    if startsList sep s ∧ sep ≠ [] then
      acc.reverse :: splitSepAux sep n [] (s.drop sep.length)
    else splitSepAux sep n (c :: acc) rest

/-- Kernel-reducible `str.split(sep)` for a non-empty separator. -/
def strSplitOn (s sep : String) : List String :=
  (splitSepAux sep.toList s.length [] s.toList).map String.mk

/-- ASCII lower-casing of one character. -/
def lowerChar (c : Char) : Char :=
  if 'A' ≤ c ∧ c ≤ 'Z' then Char.ofNat (c.toNat + 32) else c

/-- Kernel-reducible `str.lower()` (ASCII). -/
def strToLower (s : String) : String :=
  String.mk (s.toList.map lowerChar)

/-- Kernel-reducible `str.strip()` (whitespace on both sides). -/
def strTrim (s : String) : String :=
  String.mk (((s.toList.dropWhile isWsB).reverse.dropWhile isWsB).reverse)

/-- Kernel-reducible `sep.join(l)`. -/
def strIntercalate (sep : String) : List String → String
  | [] => ""
  | [x] => x
  | x :: xs => x ++ sep ++ strIntercalate sep xs

/-- Last path component; models `pathlib.Path(p).name` (splitting on both
separator styles, as `pathlib` does on Windows paths used by the tool). -/
def pathName (p : String) : String :=
  let p1 := (strSplitOn p "\\").getLastD p
  (strSplitOn p1 "/").getLastD p1

/-- Index of the last dot of a character list, if any. -/
def lastDotIdx (cs : List Char) : Option Nat :=
  ((cs.enum.filter (fun q => q.2 == '.')).getLast?).map (fun q => q.1)

/-- File-name suffix; models CPython `PurePath.suffix`
(`name[i:]` where `i = name.rfind('.')` provided `0 < i < len(name)-1`). -/
def pathSuffix (p : String) : String :=
  let name := (pathName p).toList
  match lastDotIdx name with
  | some i => if 0 < i ∧ i + 1 < name.length then String.mk (name.drop i) else ""
  | none => ""

/-- Parent directory of a relative path; models `Path(p).parent` (the empty
string plays the role of `Path('.')`). -/
def parentDir (p : String) : String :=
  strIntercalate "/" ((strSplitOn p "/").dropLast)

/-- Normalize path components, dropping `.` and empty components and
resolving `..`; models the effect of `Path.resolve()` on the joined path. -/
def normComps : List String → List String → List String
  | acc, [] => acc.reverse
  | acc, c :: cs =>
    if c = "" ∨ c = "." then normComps acc cs
    else if c = ".." then
      match acc with
      | [] => normComps [".."] cs
      | a :: rest => if a = ".." then normComps (".." :: acc) cs else normComps rest cs
    else normComps (c :: acc) cs

/-- Join a directory and a (possibly relative) specifier and normalize;
models `(importer.parent / spec).resolve()` relative to the project root. -/
def normJoin (dir spec : String) : String :=
  strIntercalate "/" (normComps [] ((strSplitOn dir "/") ++ (strSplitOn spec "/")))

/-- Split the text into lines; models Python `str.splitlines` for the
common terminators `\n`, `\r`, `\r\n`. -/
def splitLinesAux : List Char → List Char → List String
  | [], acc => if acc.isEmpty then [] else [String.mk acc.reverse]
  | '\r' :: '\n' :: rest, acc => String.mk acc.reverse :: splitLinesAux rest []
  | '\r' :: rest, acc => String.mk acc.reverse :: splitLinesAux rest []
  | '\n' :: rest, acc => String.mk acc.reverse :: splitLinesAux rest []
  | c :: rest, acc => splitLinesAux rest (c :: acc)

/-- Split a string into lines as `str.splitlines` does. -/
def splitLines (s : String) : List String :=
  splitLinesAux s.toList []

/-- Split a character list at whitespace characters (keeping empty runs,
filtered by `wsTokens`). -/
def wsRunsAux : List Char → List Char → List (List Char)
  | acc, [] => [acc.reverse]
  | acc, c :: rest =>
    if isWsB c then acc.reverse :: wsRunsAux [] rest
    else wsRunsAux (c :: acc) rest

/-- Whitespace tokens of a string; models Python `str.split()` with no
argument (splitting on runs of whitespace, no empty tokens). -/
def wsTokens (s : String) : List String :=
  ((wsRunsAux [] s.toList).map String.mk).filter (fun t => t ≠ "")

/-- Split a string at the first occurrence of a separator; models
`str.split(sep, 1)` returning `none` when the separator is absent
(where Python unpacking would raise `ValueError`). -/
def splitOnceAux (sep : List Char) : List Char → List Char → Option (String × String)
  | _, [] => none
  | acc, s@(c :: rest) =>
    if startsList sep s then some (String.mk acc.reverse, String.mk (s.drop sep.length))
    else splitOnceAux sep (c :: acc) rest

/-- Split at the first occurrence of `sep`. -/
def splitOnce (sep : String) (s : String) : Option (String × String) :=
  splitOnceAux sep.toList [] s.toList

/-- Does the first character of a string exist and satisfy `p`? -/
def headIs (p : Char → Bool) (s : String) : Bool :=
  match s.toList with
  | c :: _ => p c
  | [] => false

end AstConv

namespace AstConv

/-! ### A small backtracking regex matcher

Quantifiers are restricted to single-character classes, which covers every
pattern appearing in the two Python sources and keeps matching terminating
by construction.  `matchR` is written in continuation-passing style so that
alternation and greedy/lazy quantifiers backtrack exactly as Python `re`
does on these patterns. -/

/-- Regex AST covering the constructs used by the Python sources. -/
inductive RE where
  | lit : List Char → RE
  | cls : (Char → Bool) → RE
  | plusCls : (Char → Bool) → RE
  | starCls : (Char → Bool) → RE
  | lazyStarCls : (Char → Bool) → RE
  | opt : RE → RE
  | alt : RE → RE → RE
  | seq : RE → RE → RE
  | group : Nat → RE → RE
  | wb : RE
  | eos : RE
  | eol : RE

/-- Capture groups of a match: group index paired with captured characters. -/
abbrev Caps := List (Nat × List Char)

/-- Result of a match attempt: captures and the remaining input. -/
abbrev MRes := Option (Caps × List Char)

/-- Continuation fed with remaining input, previous character and captures. -/
abbrev Cont := List Char → Option Char → Caps → MRes

/-- Word-boundary test between the previous character and the next input. -/
def boundaryOk (prev : Option Char) (s : List Char) : Bool :=
  let pw := match prev with | some c => isWordB c | none => false
  let nw := match s with | c :: _ => isWordB c | [] => false
  pw != nw

/-- Consume a literal from the input, tracking the last consumed character. -/
def consumeLit : List Char → List Char → Option Char → Option (List Char × Option Char)
  | [], s, prev => some (s, prev)
  | l :: ls, c :: s, _ => if l == c then consumeLit ls s (some c) else none
  | _ :: _, [], _ => none

/-- Try `f n`, `f (n-1)`, ..., `f 0`, returning the first success
(greedy quantifier backtracking order). -/
def tryDown (f : Nat → MRes) : Nat → MRes
  | 0 => f 0
  | n + 1 => (f (n + 1)).orElse (fun _ => tryDown f n)

/-- Try `f n`, ..., `f 1`, returning the first success (greedy `+`). -/
def tryDownPos (f : Nat → MRes) : Nat → MRes
  | 0 => none
  | n + 1 => (f (n + 1)).orElse (fun _ => tryDownPos f n)

/-- Try `f i`, `f (i+1)`, ..., `f (i+n)`, first success (lazy order). -/
def tryUpFrom (f : Nat → MRes) : Nat → Nat → MRes
  | i, 0 => f i
  | i, n + 1 => (f i).orElse (fun _ => tryUpFrom f (i + 1) n)

/-- Previous character after consuming `i` characters of `run`. -/
def prevAfter (prev : Option Char) (run : List Char) (i : Nat) : Option Char :=
  if i = 0 then prev else run.get? (i - 1)

/-- Backtracking matcher in continuation-passing style. -/
def matchR : RE → List Char → Option Char → Caps → Cont → MRes
  | .lit l, s, prev0, caps, k =>
    match consumeLit l s prev0 with
    | some (s', prev') => k s' prev' caps
    | none => none
  | .cls p, s, _, caps, k =>
    match s with
    | c :: rest => if p c then k rest (some c) caps else none
    | [] => none
  | .plusCls p, s, prev, caps, k =>
    let run : List Char := s.takeWhile p
    tryDownPos (fun i => k (s.drop i) (prevAfter prev run i) caps) run.length
  | .starCls p, s, prev, caps, k =>
    let run := s.takeWhile p
    tryDown (fun i => k (s.drop i) (prevAfter prev run i) caps) run.length
  | .lazyStarCls p, s, prev, caps, k =>
    let run := s.takeWhile p
    tryUpFrom (fun i => k (s.drop i) (prevAfter prev run i) caps) 0 run.length
  | .opt r, s, prev, caps, k =>
    (matchR r s prev caps k).orElse (fun _ => k s prev caps)
  | .alt r1 r2, s, prev, caps, k =>
    (matchR r1 s prev caps k).orElse (fun _ => matchR r2 s prev caps k)
  | .seq r1 r2, s, prev, caps, k =>
    matchR r1 s prev caps (fun s' prev' caps' => matchR r2 s' prev' caps' k)
  | .group n r, s, prev, caps, k =>
    matchR r s prev caps
      (fun s' prev' caps' => k s' prev' (caps' ++ [(n, s.take (s.length - s'.length))]))
  | .wb, s, prev, caps, k =>
    if boundaryOk prev s then k s prev caps else none
  | .eos, s, prev, caps, k =>
    match s with
    | [] => k s prev caps
    | _ :: _ => none
  | .eol, s, prev, caps, k =>
    match s with
    | [] => k s prev caps
    | c :: _ => if c == '\n' then k s prev caps else none

/-- Anchored match attempt at the current position; returns captures and the
remaining input on success.  Models `re.match` at a given position. -/
def matchTop (r : RE) (s : List Char) (prev : Option Char) : MRes :=
  matchR r s prev [] (fun s' _ caps => some (caps, s'))

/-- Character just before the remaining input `s'`, inside original `s`. -/
def lastConsumed (s s' : List Char) (prev : Option Char) : Option Char :=
  match s.get? (s.length - s'.length - 1) with
  | some c => some c
  | none => prev

/-- Scan for non-overlapping matches left to right; models `re.finditer`. -/
def findIterAux (r : RE) : Nat → List Char → Option Char → List Caps
  | 0, _, _ => []
  | _ + 1, [], _ => []
  | n + 1, s@(c :: rest), prev =>
    match matchTop r s prev with
    | some (caps, s') =>
      if s'.length < s.length then caps :: findIterAux r n s' (lastConsumed s s' prev)
      else caps :: findIterAux r n rest (some c)
    | none => findIterAux r n rest (some c)

/-- All non-overlapping matches of `r` in `s`. -/
def findIter (r : RE) (s : List Char) : List Caps :=
  findIterAux r (s.length + 1) s none

/-- Delete all non-overlapping matches of `r`; models `re.sub(r, '', s)`. -/
def reStripAux (r : RE) : Nat → List Char → Option Char → List Char
  | 0, s, _ => s
  | _ + 1, [], _ => []
  | n + 1, s@(c :: rest), prev =>
    match matchTop r s prev with
    | some (_, s') =>
      if s'.length < s.length then reStripAux r n s' (lastConsumed s s' prev)
      else c :: reStripAux r n rest (some c)
    | none => c :: reStripAux r n rest (some c)

/-- Delete all matches of `r` from a string. -/
def reStripStr (r : RE) (s : String) : String :=
  String.mk (reStripAux r (s.length + 1) s.toList none)

/-- Captured text of group `n` (empty if the group did not participate). -/
def capStr (caps : Caps) (n : Nat) : String :=
  match caps.find? (fun p => p.1 == n) with
  | some p => String.mk p.2
  | none => ""

/-- Sequence a list of regexes. -/
def reSeq (l : List RE) : RE :=
  l.foldr RE.seq (RE.lit [])

/-- Alternation of a list of literal strings (in order). -/
def altLits : List String → RE
  | [] => RE.lit []
  | [x] => RE.lit x.toList
  | x :: xs => RE.alt (RE.lit x.toList) (altLits xs)

end AstConv

namespace AstConv

/-! ### Regexes of `tools/generate_imports_from_source.py` -/

/-- Character class `[A-Za-z_]` (identifier head). -/
def alphaU (c : Char) : Bool := c.isAlpha || c == '_'

/-- Character class `[A-Za-z0-9_.]` (dotted namespace names). -/
def nsC (c : Char) : Bool := isWordB c || c == '.'

/-- Character class `[A-Za-z0-9_\.]` of `extract_invocations`. -/
def invPlainC (c : Char) : Bool := isWordB c || c == '.'

/-- Character class `[A-Za-z0-9_\.\>]` of `INVOKE_RE` in
`generate_file_sheets.py`. -/
def invC (c : Char) : Bool := isWordB c || c == '.' || c == '>'

/-- Character class `[A-Za-z0-9_<>,\s\[\]]` of the method-signature scans. -/
def sigC (c : Char) : Bool :=
  isWordB c || c == '<' || c == '>' || c == ',' || isWsB c || c == '[' || c == ']'

/-- Character class `[A-Za-z0-9_<>.,\s\[\]]` of the field-declaration scan. -/
def fieldC (c : Char) : Bool := sigC c || c == '.'

/-- Character class `[^)]`. -/
def notRParen (c : Char) : Bool := c != ')'

/-- Character class `[^\]]`. -/
def notRBrk (c : Char) : Bool := c != ']'

/-- Character class `.` under `re.S` (any character). -/
def anyC (_ : Char) : Bool := true

/-- Character class `.` without `re.S` (any character except newline). -/
def notNl (c : Char) : Bool := c != '\n'

/-- `NAMESPACE_RE = ^\s*namespace\s+([A-Za-z0-9_.]+)\s*(?:\{|;)`,
used anchored via `re.match` on each line. -/
def NS_LINE_RE : RE :=
  reSeq [.starCls isWsB, .lit "namespace".toList, .plusCls isWsB,
         .group 1 (.plusCls nsC), .starCls isWsB,
         .alt (.lit "\x7b".toList) (.lit ";".toList)]

/-- `USING_RE = ^\s*using\s+([A-Za-z0-9_.]+)\s*;`, anchored via `re.match`. -/
def US_LINE_RE : RE :=
  reSeq [.starCls isWsB, .lit "using".toList, .plusCls isWsB,
         .group 1 (.plusCls nsC), .starCls isWsB, .lit ";".toList]

/-- Regex `\bclass\s+([A-Za-z0-9_]+)` of `find_declared_types_and_methods`. -/
def CLASS_RE : RE :=
  reSeq [.wb, .lit "class".toList, .plusCls isWsB, .group 1 (.plusCls isWordB)]

/-- Regex `\b(struct|record|interface|enum)\s+([A-Za-z0-9_]+)`. -/
def TYPEKIND_RE : RE :=
  reSeq [.wb, .group 1 (altLits ["struct", "record", "interface", "enum"]),
         .plusCls isWsB, .group 2 (.plusCls isWordB)]

/-- The modifier alternation
`public|private|protected|internal|static|async|protected internal|internal protected`. -/
def MODS_METH : RE :=
  altLits ["public", "private", "protected", "internal", "static", "async",
           "protected internal", "internal protected"]

/-- Method-declaration regex
`\b(?:MODS)\s+[A-Za-z0-9_<>,\s\[\]]+\s+([A-Za-z0-9_]+)\s*\(` of
`find_declared_types_and_methods`. -/
def METHDECL_RE : RE :=
  reSeq [.wb, MODS_METH, .plusCls isWsB, .plusCls sigC, .plusCls isWsB,
         .group 1 (.plusCls isWordB), .starCls isWsB, .lit "(".toList]

/-- Field-declaration regex
`\b(?:public|private|protected|internal|static|readonly|volatile|const)\s+([A-Za-z0-9_<>.,\s\[\]]+)\s+[A-Za-z0-9_]+\s*(?:=|;)`. -/
def FIELD_RE : RE :=
  reSeq [.wb,
         altLits ["public", "private", "protected", "internal", "static",
                  "readonly", "volatile", "const"],
         .plusCls isWsB, .group 1 (.plusCls fieldC), .plusCls isWsB,
         .plusCls isWordB, .starCls isWsB,
         .alt (.lit "=".toList) (.lit ";".toList)]

/-- Method-signature regex
`\b(?:MODS)\s+[A-Za-z0-9_<>,\s\[\]]+\s+[A-Za-z0-9_]+\s*\(([^)]*)\)` of
`find_field_and_param_types`. -/
def METHSIG_RE : RE :=
  reSeq [.wb, MODS_METH, .plusCls isWsB, .plusCls sigC, .plusCls isWsB,
         .plusCls isWordB, .starCls isWsB, .lit "(".toList,
         .group 1 (.starCls notRParen), .lit ")".toList]

/-- Attribute regex `\[[^\]]+\]` (removal of `[FromBody]`-style attributes). -/
def ATTR_RE : RE :=
  reSeq [.lit "[".toList, .plusCls notRBrk, .lit "]".toList]

/-- Parameter-modifier regex `\b(ref|out|in|params)\b`. -/
def MODKW_RE : RE :=
  reSeq [.wb, .group 1 (altLits ["ref", "out", "in", "params"]), .wb]

/-- Generic-suffix regex `<.*>$` (`$` is end-of-input on the single-line
type names this is applied to). -/
def GENSUF_RE : RE :=
  reSeq [.lit "<".toList, .starCls notNl, .lit ">".toList, .eos]

/-- Regex `\bvar\s+([A-Za-z0-9_]+)\s*=\s*new\s+([A-Za-z0-9_]+)`
(first pass of `find_variable_type_map`). -/
def VAR1_RE : RE :=
  reSeq [.wb, .lit "var".toList, .plusCls isWsB, .group 1 (.plusCls isWordB),
         .starCls isWsB, .lit "=".toList, .starCls isWsB, .lit "new".toList,
         .plusCls isWsB, .group 2 (.plusCls isWordB)]

/-- Regex `\b([A-Za-z0-9_]+)\s+([A-Za-z0-9_]+)\s*=\s*new\s+([A-Za-z0-9_]+)`
(second pass of `find_variable_type_map`). -/
def VAR2_RE : RE :=
  reSeq [.wb, .group 1 (.plusCls isWordB), .plusCls isWsB,
         .group 2 (.plusCls isWordB), .starCls isWsB, .lit "=".toList,
         .starCls isWsB, .lit "new".toList, .plusCls isWsB,
         .group 3 (.plusCls isWordB)]

/-- Regex `new\s+([A-Za-z0-9_]+)` collecting `new TypeName` usages. -/
def NEWTYPE_RE : RE :=
  reSeq [.lit "new".toList, .plusCls isWsB, .group 1 (.plusCls isWordB)]

/-- Regex `([A-Za-z0-9_\.]+)\s*\(([^)]*)\)` of `extract_invocations`. -/
def EXTINV_RE : RE :=
  reSeq [.group 1 (.plusCls invPlainC), .starCls isWsB, .lit "(".toList,
         .group 2 (.starCls notRParen), .lit ")".toList]

/-- Block-comment regex `/\*.*?\*/` with `re.S`. -/
def BLOCKCMT_RE : RE :=
  reSeq [.lit "/*".toList, .lazyStarCls anyC, .lit "*/".toList]

/-- Line-comment regex `//.*?$` with `re.M`. -/
def LINECMT_RE : RE :=
  reSeq [.lit "//".toList, .lazyStarCls notNl, .eol]

/-! ### Regexes of `tools/api_exporter/generate_file_sheets.py` -/

/-- `NAMESPACE_RE = namespace\s+(?P<ns>[A-Za-z0-9_.]+)` (unanchored). -/
def FS_NS_RE : RE :=
  reSeq [.lit "namespace".toList, .plusCls isWsB, .group 1 (.plusCls nsC)]

/-- `USING_RE = using\s+(?P<ns>[A-Za-z0-9_.]+)\s*;` (unanchored). -/
def FS_US_RE : RE :=
  reSeq [.lit "using".toList, .plusCls isWsB, .group 1 (.plusCls nsC),
         .starCls isWsB, .lit ";".toList]

/-- `CS_TYPE_DECL_RE = \b(class|struct|interface|enum)\s+(?P<name>[A-Za-z_][A-Za-z0-9_]*)`. -/
def CS_TYPE_RE : RE :=
  reSeq [.wb, .group 1 (altLits ["class", "struct", "interface", "enum"]),
         .plusCls isWsB, .group 2 (.seq (.cls alphaU) (.starCls isWordB))]

/-- `IDENTIFIER_RE = \b([A-Za-z_][A-Za-z0-9_]*)\b`. -/
def IDENT_RE : RE :=
  reSeq [.wb, .group 1 (.seq (.cls alphaU) (.starCls isWordB)), .wb]

/-- `INVOKE_RE = ([A-Za-z_][A-Za-z0-9_\.\>]*)\s*\(`. -/
def INVOKE_RE : RE :=
  reSeq [.group 1 (.seq (.cls alphaU) (.starCls invC)), .starCls isWsB,
         .lit "(".toList]

end AstConv

namespace AstConv

/-! ### Embedding of `tools/generate_imports_from_source.py` -/

/-- Embeds `strip_comments`: remove `/* */` block comments, then `//` line
comments. -/
def strip_comments (text : String) : String :=
  if text = "" then text
  else reStripStr LINECMT_RE (reStripStr BLOCKCMT_RE text)

/-- Embeds `find_namespaces_and_usings`: per line, an anchored match of
`NAMESPACE_RE` and of `USING_RE`; both result lists are deduplicated
keeping first occurrences.  The `none` input models an unreadable file
(the `except` branch returns the empty lists). -/
def find_namespaces_and_usings : Option String → List String × List String
  | none => ([], [])
  | some text =>
    let step := (splitLines text).foldl
      (fun (acc : List String × List String) line =>
        let l := line.toList
        let nss := match matchTop NS_LINE_RE l none with
          | some (caps, _) => acc.1 ++ [capStr caps 1]
          | none => acc.1
        let us := match matchTop US_LINE_RE l none with
          | some (caps, _) => acc.2 ++ [capStr caps 1]
          | none => acc.2
        (nss, us)) ([], [])
    (dedupFirst step.1, dedupFirst step.2)

/-- Embeds `find_declared_types_and_methods`: class names, then
struct/record/interface/enum names, and heuristic method declarations;
`none` models an unreadable file (empty result). -/
def find_declared_types_and_methods : Option String → List String × List String
  | none => ([], [])
  | some text =>
    let cs := text.toList
    let classes := (findIter CLASS_RE cs).map (fun c => capStr c 1)
      ++ (findIter TYPEKIND_RE cs).map (fun c => capStr c 2)
    let methods := (findIter METHDECL_RE cs).map (fun c => capStr c 1)
    (dedupFirst classes, dedupFirst methods)

/-- Embeds `find_variable_type_map`: first the `var X = new Type` pass,
then the `Type X = new Type2` pass, each assigning into the same dict. -/
def find_variable_type_map (text : String) : List (String × String) :=
  let cs := text.toList
  let m1 := (findIter VAR1_RE cs).foldl
    (fun m caps => upsert m (capStr caps 1) (capStr caps 2)) []
  (findIter VAR2_RE cs).foldl
    (fun m caps => upsert m (capStr caps 2) (capStr caps 1)) m1

/-- Last whitespace token of a string, `none` when there is no token
(where Python `s.split()[-1]` raises `IndexError`). -/
def lastTok (s : String) : Option String :=
  (wsTokens s).getLast?

/-- Embeds `find_field_and_param_types`.  The result is `none` when the
Python function would raise (`split()[-1]` on an empty token list, caught
by the caller in `main`), `some types` otherwise; an unreadable file
(`none` input) hits the internal `except` branch and yields `some []`. -/
def find_field_and_param_types : Option String → Option (List String)
  | none => some []
  | some raw =>
    let text := strip_comments raw
    let cs := text.toList
    let fieldStep : Option (List String) :=
      (findIter FIELD_RE cs).foldlM
        (fun acc caps =>
          let t := strTrim (capStr caps 1)
          match lastTok (reStripStr GENSUF_RE t) with
          | some tshort => some (if tshort ≠ "" then listInsert tshort acc else acc)
          | none => none) []
    match fieldStep with
    | none => none
    | some types0 =>
      some ((findIter METHSIG_RE cs).foldl
        (fun types caps =>
          let plist := capStr caps 1
          if plist = "" then types
          else (strSplitOn plist ",").foldl
            (fun ts p =>
              let p1 := strTrim p
              if p1 = "" then ts
              else
                let p2 := strTrim (reStripStr ATTR_RE p1)
                let p3 := strTrim (reStripStr MODKW_RE p2)
                let parts := wsTokens p3
                if 2 ≤ parts.length then
                  listInsert (reStripStr GENSUF_RE (parts.headD "")) ts
                else ts) types) types0)

/-- Embeds `extract_invocations`: raw invocation expressions paired with
their argument-list text. -/
def extract_invocations (text : String) : List (String × String) :=
  (findIter EXTINV_RE text.toList).map (fun caps => (capStr caps 1, capStr caps 2))

/-- Embeds the cache line `set(m.group(1) for m in re.finditer(r"new\s+([A-Za-z0-9_]+)", text))`. -/
def newTypesOf (text : String) : List String :=
  dedupFirst ((findIter NEWTYPE_RE text.toList).map (fun caps => capStr caps 1))

/-- Embeds `match_using_to_file_ids`.  `strict` is the module global
`GLOBAL_STRICT_USINGS`; in strict mode only equality and declared-is-child
matches are allowed, the permissive mode additionally allows the reverse
containment. -/
def match_using_to_file_ids (strict : Bool) (u : String)
    (ns_to_ids : List (String × List Nat)) : List Nat :=
  ns_to_ids.foldl
    (fun acc p =>
      if strict then
        if p.1 = u ∨ strStartsWith p.1 (u ++ ".") = true then listUnion acc p.2 else acc
      else
        if p.1 = u ∨ strStartsWith p.1 (u ++ ".") = true ∨ strStartsWith u (p.1 ++ ".") = true then
          listUnion acc p.2
        else acc) []

/-- The module constant `USING_IGNORE_KEYWORDS`. -/
def USING_IGNORE_KEYWORDS : List String :=
  ["dependencyinjection", "databasecontext", "startup", "program"]

/-- A source record as built in `main` of `generate_imports_from_source.py`
(the dict with keys `id`, `path`, `relpath`, `declared_namespaces`,
`usings` plus the cached fields `text`, `var_map`, `param_field_types`,
`new_types`, `invocations`). -/
structure SrcRec where
  id : Nat
  path : String
  relpath : String
  declared_namespaces : List String
  usings : List String
  text : String
  var_map : List (String × String)
  param_field_types : List String
  new_types : List String
  invocations : List (String × String)
deriving DecidableEq

/-- Embeds the record construction and per-record caching block of `main`
(lines 548-575): namespaces/usings from `find_namespaces_and_usings`,
comment-stripped text (empty on read failure), variable-type map,
field/parameter types (empty when that helper raises), `new` types and
invocations. -/
def buildRecord (readResult : Option String) (idN : Nat) (pathS relpath : String) : SrcRec :=
  let nu := find_namespaces_and_usings readResult
  let text := match readResult with
    | none => ""
    | some raw => strip_comments raw
  { id := idN, path := pathS, relpath := relpath,
    declared_namespaces := nu.1, usings := nu.2,
    text := text,
    var_map := find_variable_type_map text,
    param_field_types := (find_field_and_param_types readResult).getD [],
    new_types := newTypesOf text,
    invocations := extract_invocations text }

/-- The worker state of `process_record_imports`: the accumulated
`matches` list (field `matched`; `matches` is a Lean keyword) and the `seen` set of already-matched target ids. -/
structure PState where
  matched : List (Nat × String × String)
  seen : List Nat
deriving DecidableEq

/-- The common guarded append used by every non-`using` heuristic of
`process_record_imports`: append `(fid, reason, symbol)` and mark `fid`
seen when `fid` is unseen, differs from the record id and is not
excluded. -/
def tryAdd (recId : Nat) (skip : Nat → Bool) (fid : Nat) (reason sym : String)
    (st : PState) : PState :=
  if fid ∉ st.seen ∧ fid ≠ recId ∧ skip fid = false then
    { matched := st.matched ++ [(fid, reason, sym)], seen := st.seen ++ [fid] }
  else st

/-- Embeds `should_skip_target`: look the target up in the module-global
`records` list (passed here as `records_g`); unknown targets are never
skipped; otherwise skip when a non-empty user exclusion pattern occurs in
the lowercased file name. -/
def should_skip_target (excl : List String) (records_g : List SrcRec) (fid : Nat) : Bool :=
  match records_g.find? (fun r => r.id == fid) with
  | none => false
  | some target =>
    let fname := strToLower (pathName target.path)
    excl.any (fun pat => pat ≠ "" && substrB pat fname)

/-- Embeds the inline skip test of the `using` heuristic (lines 303-319):
the hardcoded `USING_IGNORE_KEYWORDS` filter followed by the user
exclusion patterns, both applied to the lowercased file name of the
target looked up in the module-global `records` list. -/
def usingSkip (excl : List String) (records_g : List SrcRec) (fid : Nat) : Bool :=
  match records_g.find? (fun r => r.id == fid) with
  | none => false
  | some target =>
    let fname := strToLower (pathName target.path)
    if USING_IGNORE_KEYWORDS.any (fun kw => substrB kw fname) then true
    else excl.any (fun pat => pat ≠ "" && substrB pat fname)

/-- Append every id of a declaration list through `tryAdd` (the inner
`for fid in idx[name]` loops of `process_record_imports`). -/
def addAll (recId : Nat) (skip : Nat → Bool) (reason sym : String)
    (fids : List Nat) (st : PState) : PState :=
  fids.foldl (fun s fid => tryAdd recId skip fid reason sym s) st

/-- The guarded index lookup-and-append
`if name in idx: for fid in idx[name]: ...` of `process_record_imports`. -/
def addLookup (recId : Nat) (skip : Nat → Bool) (reason : String)
    (idx : List (String × List Nat)) (key sym : String) (st : PState) : PState :=
  match alookup idx key with
  | some fids => addAll recId skip reason sym fids st
  | none => st

/-- Heuristic 1 of `process_record_imports`: param/field/return types with
DI expansion. -/
def stage1 (recId : Nat) (skip : Nat → Bool) (cidx : List (String × List Nat))
    (di : List (String × List String)) (params : List String) (st0 : PState) : PState :=
  params.foldl
    (fun st t =>
      let st1 := addLookup recId skip "param" cidx t t st
      match alookup di t with
      | some impls => impls.foldl
          (fun s impl => addLookup recId skip "di" cidx impl (t ++ "->" ++ impl) s) st1
      | none => st1) st0

/-- Heuristic 2 of `process_record_imports`: `new TypeName` usages. -/
def stage2 (recId : Nat) (skip : Nat → Bool) (cidx : List (String × List Nat))
    (new_types : List String) (st0 : PState) : PState :=
  new_types.foldl
    (fun st tn => addLookup recId skip "new" cidx tn tn st) st0

/-- Heuristic 3 of `process_record_imports`: invocations, matched by
qualifier type, method name, and argument variables of known type. -/
def stage3 (recId : Nat) (skip : Nat → Bool) (cidx method_idx : List (String × List Nat))
    (var_map : List (String × String)) (invs : List (String × String)) (st0 : PState) : PState :=
  invs.foldl
    (fun st inv =>
      let parts := strSplitOn inv.1 "."
      let methodOrType := parts.getLastD ""
      let qualifier := if 1 < parts.length then parts.headD "" else ""
      let stq := if qualifier ≠ "" ∧ headIs Char.isUpper qualifier = true then
          addLookup recId skip "qualifier" cidx qualifier qualifier st
        else st
      let stm := addLookup recId skip "method" method_idx methodOrType methodOrType stq
      (((strSplitOn inv.2 ",").map strTrim).filter (fun a => a ≠ "")).foldl
        (fun s a =>
          match alookup var_map a with
          | some t => addLookup recId skip "argvar" cidx t t s
          | none => s) stm) st0

/-- Heuristic 4 of `process_record_imports`: `using` → declared-namespace
matches.  Candidates are first gathered against the `seen` set as it
stands after heuristic 3 (`st0.seen`), filtered through `usingSkip`;
then each candidate is appended when it was already seen (only case kept
under `NO_USING_ONLY`) or unconditionally in the default mode. -/
def stage4 (strict noUsingOnly : Bool) (recId : Nat) (excl : List String)
    (records_g : List SrcRec) (ns_to_ids : List (String × List Nat))
    (usings : List String) (st0 : PState) : PState :=
  let cands := usings.foldl
    (fun cs u =>
      (match_using_to_file_ids strict u ns_to_ids).foldl
        (fun cs2 fid =>
          if fid ∉ st0.seen ∧ fid ≠ recId then
            if usingSkip excl records_g fid then cs2 else cs2 ++ [(fid, u)]
          else cs2) cs) []
  cands.foldl
    (fun st c =>
      if c.1 ∈ st.seen ∨ noUsingOnly = false then
        { matched := st.matched ++ [(c.1, "using", c.2)], seen := st.seen ++ [c.1] }
      else st) st0

/-- Heuristic 5 of `process_record_imports`: filename fallback for type
names absent from the class index. -/
def stage5 (recId : Nat) (skip : Nat → Bool) (cidx : List (String × List Nat))
    (records_g : List SrcRec) (params new_types : List String) (st0 : PState) : PState :=
  (dedupFirst (params ++ new_types)).foldl
    (fun st t =>
      match alookup cidx t with
      | some _ => st
      | none => records_g.foldl
          (fun s r =>
            if strToLower (pathName r.path) = strToLower t ++ ".cs" then
              tryAdd recId skip r.id "filename" t s
            else s) st) st0

/-- Embeds `process_record_imports`.  The module globals
`GLOBAL_STRICT_USINGS`, `NO_USING_ONLY`, `EXCLUDE_FILENAME_PATTERNS` and
`globals().get('records', [])` are passed as the parameters `strict`,
`noUsingOnly`, `excl` and `records_g`; note that in the program itself
`records` is a local variable of `main`, so the module-global lookup
always yields the empty list.  Returns `(file_id, relpath, matches)`. -/
def process_record_imports (strict noUsingOnly : Bool) (excl : List String)
    (records_g : List SrcRec) (rec : SrcRec)
    (class_idx method_idx : List (String × List Nat))
    (di_map : List (String × List String)) (ns_to_ids : List (String × List Nat)) :
    Nat × String × List (Nat × String × String) :=
  let skip := should_skip_target excl records_g
  let st1 := stage1 rec.id skip class_idx di_map rec.param_field_types ⟨[], []⟩
  let st2 := stage2 rec.id skip class_idx rec.new_types st1
  let st3 := stage3 rec.id skip class_idx method_idx rec.var_map rec.invocations st2
  let st4 := stage4 strict noUsingOnly rec.id excl records_g ns_to_ids rec.usings st3
  let st5 := stage5 rec.id skip class_idx records_g rec.param_field_types rec.new_types st4
  (rec.id, rec.relpath, st5.matched)

end AstConv

namespace AstConv

/-! ### Embedding of `tools/api_exporter/generate_file_sheets.py` -/

/-- Recognized TypeScript/JavaScript extensions (`TS_EXTS`). -/
def TS_EXTS : List String := [".ts", ".tsx", ".js", ".jsx"]

/-- Recognized C# extensions (`CS_EXTS`). -/
def CS_EXTS : List String := [".cs"]

/-- Embeds `read_text`: the decoded content, or the empty string when
reading raises (`none` input models an unreadable file). -/
def read_text : Option String → String
  | some t => t
  | none => ""

/-- Embeds `extract_cs_declarations_and_usings`: declared type names,
declared namespaces, the ordered `using` list and the whole-file
identifier set. -/
def extract_cs_declarations_and_usings (text : String) :
    List String × List String × List String × List String :=
  let cs := text.toList
  let declared_types := dedupFirst ((findIter CS_TYPE_RE cs).map (fun c => capStr c 2))
  let declared_namespaces := dedupFirst ((findIter FS_NS_RE cs).map (fun c => capStr c 1))
  let usings := (findIter FS_US_RE cs).map (fun c => capStr c 1)
  let identifiers := dedupFirst ((findIter IDENT_RE cs).map (fun c => capStr c 1))
  (declared_types, declared_namespaces, usings, identifiers)

/-- Whole-file identifier set, `set(IDENTIFIER_RE.findall(text))`. -/
def identsOf (text : String) : List String :=
  dedupFirst ((findIter IDENT_RE text.toList).map (fun c => capStr c 1))

/-- Embeds `resolve_ts_import`: non-relative specifiers resolve to nothing;
otherwise the candidates are the joined base path with each recognized
extension appended, then `index.<ext>` files under the base directory,
with the base itself prepended when it is an existing file; the existing
candidates are returned.  `existsF`/`isFileF` model the file system,
paths are kept project-root relative (`Path.resolve` + `relative_to`). -/
def resolve_ts_import (existsF isFileF : String → Bool) (importerRel spec : String) :
    List String :=
  if ¬ strStartsWith spec "." then []
  else
    let base := normJoin (parentDir importerRel) spec
    let cands0 := TS_EXTS.map (fun e => base ++ e) ++ TS_EXTS.map (fun e => base ++ "/index" ++ e)
    let cands := if existsF base && isFileF base then base :: cands0 else cands0
    cands.filter (fun p => existsF p)

/-- The index object built by `build_indexes`, restricted to the fields
read by `compute_dependencies_for_file` (association lists keyed by
project-relative path, resp. by namespace/symbol name). -/
structure DepIdxs where
  ts_imports : List (String × List String)
  cs_usings : List (String × List String)
  cs_identifiers : List (String × List String)
  symbol_decl_map : List (String × List String)
  namespace_decl_map : List (String × List String)
  file_texts : List (String × String)
deriving DecidableEq

/-- The level-1 computation of `compute_dependencies_for_file`
(lines 227-256): TS import resolution, C# using/identifier matches, and
the TS whole-file identifier fallback, all filtered against the root
itself only in the C# branches, exactly as in the source. -/
def rootLevel1 (existsF isFileF : String → Bool) (idxs : DepIdxs) (relpath : String) :
    List String :=
  let s1 := if pathSuffix relpath ∈ TS_EXTS then
      (alookupD idxs.ts_imports relpath []).foldl
        (fun acc spec =>
          (resolve_ts_import existsF isFileF relpath spec).foldl
            (fun a r => listInsert r a) acc) []
    else []
  let s2 := if pathSuffix relpath ∈ CS_EXTS then
      let s2a := (alookupD idxs.cs_usings relpath []).foldl
        (fun acc nsv =>
          (alookupD idxs.namespace_decl_map nsv []).foldl
            (fun a f => if f ≠ relpath then listInsert f a else a) acc) s1
      (alookupD idxs.cs_identifiers relpath []).foldl
        (fun acc ident =>
          (alookupD idxs.symbol_decl_map ident []).foldl
            (fun a f => if f ≠ relpath then listInsert f a else a) acc) s2a
    else s1
  if pathSuffix relpath ∈ TS_EXTS then
    (identsOf (alookupD idxs.file_texts relpath "")).foldl
      (fun acc ident =>
        (alookupD idxs.symbol_decl_map ident []).foldl
          (fun a f => if f ≠ relpath then listInsert f a else a) acc) s2
  else s2

/-- The per-file direct-edge computation of the BFS body of
`compute_dependencies_for_file` (lines 266-287): TS import resolution and
C# using/identifier matches (the TS identifier fallback is applied only
to the root file, not here). -/
def stepDirect (existsF isFileF : String → Bool) (idxs : DepIdxs) (f : String) :
    List String :=
  let d1 := if pathSuffix f ∈ TS_EXTS then
      (alookupD idxs.ts_imports f []).foldl
        (fun acc spec =>
          (resolve_ts_import existsF isFileF f spec).foldl
            (fun a r => listInsert r a) acc) []
    else []
  if pathSuffix f ∈ CS_EXTS then
    let d2 := (alookupD idxs.cs_usings f []).foldl
      (fun acc nsv =>
        (alookupD idxs.namespace_decl_map nsv []).foldl
          (fun a ff => if ff ≠ f then listInsert ff a else a) acc) d1
    (alookupD idxs.cs_identifiers f []).foldl
      (fun acc ident =>
        (alookupD idxs.symbol_decl_map ident []).foldl
          (fun a ff => if ff ≠ f then listInsert ff a else a) acc) d2
  else d1

/-- Guarded insertion of direct targets into the next level: the source
condition `d not in deps_levels[1] and all(d not in deps_levels[x] for x
in range(1, lvl+1))` is exactly "absent from every level 1..lvl" (the
first conjunct is subsumed by the `all`), here quantified over
`levelsNow`, the list of levels 1..lvl. -/
def addCandidates (levelsNow : List (List String)) : List String → List String → List String
  | next, [] => next
  | next, d :: ds =>
    addCandidates levelsNow (if ∀ l ∈ levelsNow, d ∉ l then listInsert d next else next) ds

/-- One BFS step of `compute_dependencies_for_file` (lines 258-290):
process the current level in order, skipping already-visited files and
files that do not exist on disk, and collect new targets into the next
level (written as explicit recursion over the level; it is the body of
the `for f in list(deps_levels[lvl])` loop). -/
def depProcessLevel (existsF isFileF : String → Bool) (idxs : DepIdxs)
    (levelsNow : List (List String)) :
    List String → List String → List String → List String × List String
  | [], next, visited => (next, visited)
  | f :: fs, next, visited =>
    if f ∈ visited then depProcessLevel existsF isFileF idxs levelsNow fs next visited
    else if existsF f then
      depProcessLevel existsF isFileF idxs levelsNow fs
        (addCandidates levelsNow next (stepDirect existsF isFileF idxs f)) (visited ++ [f])
    else depProcessLevel existsF isFileF idxs levelsNow fs next (visited ++ [f])

/-- The BFS loop of `compute_dependencies_for_file`: `prev` holds levels
1..lvl-1, `cur` is level lvl, the fuel is `max_levels - lvl`; returns the
list of levels 1..max_levels. -/
def depExpand (existsF isFileF : String → Bool) (idxs : DepIdxs) :
    List (List String) → List String → List String → Nat → List (List String)
  | prev, cur, _, 0 => prev ++ [cur]
  | prev, cur, visited, n + 1 =>
    let levelsNow := prev ++ [cur]
    let st := depProcessLevel existsF isFileF idxs levelsNow cur [] visited
    depExpand existsF isFileF idxs levelsNow st.1 st.2 n

/-- Embeds `compute_dependencies_for_file` for `max_levels ≥ 1`: index 0
is the unused empty set, index `l` the level-`l` dependency set. -/
def compute_dependencies_for_file (existsF isFileF : String → Bool) (idxs : DepIdxs)
    (relpath : String) (max_levels : Nat) : List (List String) :=
  [[]] ++ depExpand existsF isFileF idxs []
    (rootLevel1 existsF isFileF idxs relpath) [] (max_levels - 1)

/-- Level set `l` of a computed level list (`deps_levels[l]`). -/
def levelGet (levels : List (List String)) (l : Nat) : List String :=
  levels.getD l []

/-- Last segment of a string after splitting on a separator. -/
def lastSegment (sep : String) (s : String) : String :=
  (strSplitOn s sep).getLastD s

/-- The invoked-name normalization of `compute_method_calls_for_file`:
`full.split('.')[-1].split('::')[-1]` with the generic suffix removed. -/
def invokedLast (full : String) : String :=
  reStripStr GENSUF_RE (lastSegment "::" (lastSegment "." full))

/-- Invoked-name set of a method body: `INVOKE_RE` matches, normalized,
non-empty, as a set. -/
def invokedNames (body : String) : List String :=
  dedupFirst
    (((findIter INVOKE_RE body.toList).map (fun caps => invokedLast (capStr caps 1))).filter
      (fun l => l ≠ ""))

/-- The per-item expansion of the call-graph BFS (lines 332-356): split
`file::method`, look up the body of that method, and produce the keys of
all declarations matching each invoked name; unknown or empty bodies
terminate the branch. -/
def mcExpandItem (cs_methods : List (String × List (String × String)))
    (method_decl_map : List (String × List String)) (item : String) : List String :=
  match splitOnce "::" item with
  | none => []
  | some (fstr, mname) =>
    match alookup cs_methods fstr with
    | none => []
    | some ms =>
      match alookup ms mname with
      | none => []
      | some body =>
        if body = "" then []
        else (invokedNames body).foldl
          (fun ds name2 =>
            ds ++ (alookupD method_decl_map name2 []).map (fun f2 => f2 ++ "::" ++ name2)) []

/-- The per-level loop of the call-graph BFS: expand every item of the
current level and collect the new keys. -/
def mcProcessLevel (expandItem : String → List String) (levelsNow : List (List String)) :
    List String → List String → List String
  | [], next => next
  | item :: items, next =>
    mcProcessLevel expandItem levelsNow items (addCandidates levelsNow next (expandItem item))

/-- The call-graph BFS loop of `compute_method_calls_for_file`, with the
same level bookkeeping as `depExpand` (guard `all(key not in levels[x]
for x in range(1, lvl+1))`, no visited set, no existence check). -/
def mcExpand (expandItem : String → List String) :
    List (List String) → List String → Nat → List (List String)
  | prev, cur, 0 => prev ++ [cur]
  | prev, cur, n + 1 =>
    let levelsNow := prev ++ [cur]
    mcExpand expandItem levelsNow (mcProcessLevel expandItem levelsNow cur []) n

/-- Embeds `compute_method_calls_for_file` for `max_levels ≥ 1`: for each
method declared in the file, level 1 holds `file::method` keys for every
declaration matching an invoked name — the source lines 323-328 test
`f != relpath` but add the identical key in both branches — and deeper
levels come from the bounded BFS. -/
def compute_method_calls_for_file (relpath : String)
    (cs_methods : List (String × List (String × String)))
    (method_decl_map : List (String × List String)) (max_levels : Nat) :
    List (String × List (List String)) :=
  let methods := alookupD cs_methods relpath []
  methods.foldl
    (fun res p =>
      let invoked := invokedNames p.2
      let level1 := invoked.foldl
        (fun l1 name =>
          (alookupD method_decl_map name []).foldl
            (fun l1x f => listInsert (f ++ "::" ++ name) l1x) l1) []
      res ++ [(p.1, [[]] ++ mcExpand (mcExpandItem cs_methods method_decl_map) [] level1
                      (max_levels - 1))]) []

end AstConv

namespace AstConv

/-- Disjointness of two level sets. -/
def LevelsDisj (a b : List String) : Prop := ∀ x, x ∈ a → x ∉ b

/-- Relation between two emitted edges stating that their targets differ
whenever at least one of the two is a non-`using` edge. -/
def EdgeNoDup (a b : Nat × String × String) : Prop :=
  (a.2.1 ≠ "using" ∨ b.2.1 ≠ "using") → a.1 ≠ b.1

end AstConv

namespace AstConv

/-! ### Theorems -/

/-- Claim C1.  The claim states that no dependency level set and no
call-graph level set contains its own root; the code violates it: for a
file `a.cs` declaring a method `M` whose body calls `M` recursively, the
level-1 set computed for `(a.cs, M)` contains the pair `(a.cs, M)`
itself (the source tests `f != relpath` but adds the identical key in
both branches), so an emitted CallEdge has source equal to target. -/
theorem claim1_call_graph_self_loop_eval :
    compute_method_calls_for_file "a.cs" [("a.cs", [("M", " return M(); ")])]
        [("M", ["a.cs"])] 3 = [("M", [[], ["a.cs::M"], [], []])] ∧
    "a.cs::M" ∈ levelGet (((compute_method_calls_for_file "a.cs"
        [("a.cs", [("M", " return M(); ")])] [("M", ["a.cs"])] 3).headD ("", [])).2) 1 := by
  decide

/-- Claim C2, counterexample.  The claim states that in the level-1 edge
list of a single source file every target identifier appears at most
once; for a record with `using A; using B;` where the same target file 2
declares both namespaces, the target 2 appears twice (once per matching
`using` value), so the claim as stated is false. -/
theorem claim2_duplicate_using_edges_counterexample :
    (process_record_imports false false [] []
        ⟨1, "proj/A.cs", "A.cs", [], ["A", "B"], "", [], [], [], []⟩
        [] [] [] [("A", [2]), ("B", [2])]).2.2 =
      [(2, "using", "A"), (2, "using", "B")] ∧
    ¬ ((process_record_imports false false [] []
        ⟨1, "proj/A.cs", "A.cs", [], ["A", "B"], "", [], [], [], []⟩
        [] [] [] [("A", [2]), ("B", [2])]).2.2.map (fun e => e.1)).Nodup := by
  decide

/-- Claim C8.  The claim states that for text containing
`var x = new Foo()` the variable-type map sends `x` to `Foo`; the code
violates it: the second regex pass of `find_variable_type_map` also
matches `var x = new Foo` (with `var` as the "declared type") and
overwrites the entry, so the resulting map sends `x` to the keyword
`var`, not to `Foo`. -/
theorem claim8_var_type_map_eval :
    find_variable_type_map "var x = new Foo()" = [("x", "var")] ∧
    alookup (find_variable_type_map "var x = new Foo()") "x" ≠ some "Foo" := by
  decide

/-- Claim C10.  The claim states that the `using` heuristic never emits an
edge to a target whose lowercased filename contains a hardcoded denylist
keyword; the code violates it: the filter looks the target up in
`globals().get('records', [])`, and the module-global `records` is never
assigned (`records` is local to `main`), so the lookup list is empty,
the target is never found, and the edge is emitted even when the target
file is named `Startup.cs`.  With a populated global list (second
conjunct) the filter would indeed suppress the edge, which is what the
claim describes. -/
theorem claim10_using_denylist_bypassed_eval :
    (process_record_imports false false [] []
        ⟨1, "proj/Ctrl.cs", "Ctrl.cs", [], ["App"], "", [], [], [], []⟩
        [] [] [] [("App", [2])]).2.2 = [(2, "using", "App")] ∧
    (process_record_imports false false []
        [⟨2, "proj/Startup.cs", "Startup.cs", [], [], "", [], [], [], []⟩]
        ⟨1, "proj/Ctrl.cs", "Ctrl.cs", [], ["App"], "", [], [], [], []⟩
        [] [] [] [("App", [2])]).2.2 = [] := by
  decide

/-- Claim C9.  Unreadable or undecodable files (modelled by the `none`
read result) yield an empty record in every extractor — no declared
namespaces, no usings, no symbols — and the import resolution of the
resulting record emits no edges; all embedded functions are total, so no
exception can abort the run. -/
theorem claim9_unreadable_totality :
    read_text none = "" ∧
    find_namespaces_and_usings none = ([], []) ∧
    find_declared_types_and_methods none = ([], []) ∧
    find_field_and_param_types none = some [] ∧
    extract_cs_declarations_and_usings (read_text none) = ([], [], [], []) ∧
    ∀ (strict noUsingOnly : Bool) (excl : List String) (records_g : List SrcRec)
      (idN : Nat) (pathS relpath : String)
      (cidx midx : List (String × List Nat))
      (di : List (String × List String)) (ns_ids : List (String × List Nat)),
      (process_record_imports strict noUsingOnly excl records_g
        (buildRecord none idN pathS relpath) cidx midx di ns_ids).2.2 = [] := by
  refine ⟨rfl, rfl, rfl, rfl, by decide, ?_⟩
  intro strict noUsingOnly excl records_g idN pathS relpath cidx midx di ns_ids
  rfl

end AstConv

namespace AstConv

/-- Membership in a set-insert. -/
theorem mem_listInsert {α : Type} [DecidableEq α] (x y : α) (l : List α) :
    x ∈ listInsert y l ↔ x = y ∨ x ∈ l := by
  unfold listInsert
  split
  · rename_i h
    constructor
    · exact Or.inr
    · rintro (rfl | hx)
      · exact h
      · exact hx
  · simp [List.mem_append, or_comm]

/-- Unfolding step of `listUnion`. -/
theorem listUnion_cons {α : Type} [DecidableEq α] (acc : List α) (a : α) (as : List α) :
    listUnion acc (a :: as) = listUnion (listInsert a acc) as := rfl

/-- Membership in a set-union. -/
theorem mem_listUnion {α : Type} [DecidableEq α] (x : α) :
    ∀ (xs acc : List α), x ∈ listUnion acc xs ↔ x ∈ acc ∨ x ∈ xs := by
  intro xs
  induction xs with
  | nil => intro acc; simp [listUnion]
  | cons a as ih =>
    intro acc
    rw [listUnion_cons, ih, mem_listInsert]
    simp [List.mem_cons]
    tauto

/-- Membership characterization of a fold that unions the id set of every
entry satisfying a condition (the shape of `match_using_to_file_ids`). -/
theorem condUnion_foldl_mem (c : String × List Nat → Prop) [DecidablePred c] (fid : Nat) :
    ∀ (l : List (String × List Nat)) (acc : List Nat),
      fid ∈ l.foldl (fun acc p => if c p then listUnion acc p.2 else acc) acc ↔
        fid ∈ acc ∨ ∃ p ∈ l, fid ∈ p.2 ∧ c p := by
  intro l
  induction l with
  | nil => intro acc; simp
  | cons q qs ih =>
    intro acc
    rw [List.foldl_cons, ih]
    by_cases h : c q
    · rw [if_pos h, mem_listUnion]
      constructor
      · rintro ((ha | hq) | ⟨p, hp, hrest⟩)
        · exact Or.inl ha
        · exact Or.inr ⟨q, List.mem_cons_self q qs, hq, h⟩
        · exact Or.inr ⟨p, List.mem_cons_of_mem q hp, hrest⟩
      · rintro (ha | ⟨p, hp, hmem, hcond⟩)
        · exact Or.inl (Or.inl ha)
        · rcases List.mem_cons.mp hp with rfl | hp2
          · exact Or.inl (Or.inr hmem)
          · exact Or.inr ⟨p, hp2, hmem, hcond⟩
    · rw [if_neg h]
      constructor
      · rintro (ha | ⟨p, hp, hrest⟩)
        · exact Or.inl ha
        · exact Or.inr ⟨p, List.mem_cons_of_mem q hp, hrest⟩
      · rintro (ha | ⟨p, hp, hmem, hcond⟩)
        · exact Or.inl ha
        · rcases List.mem_cons.mp hp with rfl | hp2
          · exact absurd hcond h
          · exact Or.inr ⟨p, hp2, hmem, hcond⟩

/-- Claim C5.  A file id is produced by the `using` heuristic exactly when
some indexed namespace entry containing it satisfies the matching policy:
equality, declared-namespace-is-a-strict-child (declared starts with the
using value followed by a dot) in both modes, and additionally the
reverse containment (the using value starts with the declared namespace
followed by a dot) only in permissive mode — in strict mode the reverse
case never matches.  Concretely, `using App.Services;` matches a file
declaring `namespace App.Services.Impl` in both modes, while
`using App.Services.Impl;` matches a file declaring
`namespace App.Services` only in permissive mode. -/
theorem claim5_using_match_policy :
    (∀ (strict : Bool) (u : String) (ns_to_ids : List (String × List Nat)) (fid : Nat),
      fid ∈ match_using_to_file_ids strict u ns_to_ids ↔
        ∃ p ∈ ns_to_ids, fid ∈ p.2 ∧
          (p.1 = u ∨ strStartsWith p.1 (u ++ ".") = true ∨
            (strict = false ∧ strStartsWith u (p.1 ++ ".") = true))) ∧
    1 ∈ match_using_to_file_ids false "App.Services" [("App.Services.Impl", [1])] ∧
    1 ∈ match_using_to_file_ids true "App.Services" [("App.Services.Impl", [1])] ∧
    1 ∈ match_using_to_file_ids false "App.Services.Impl" [("App.Services", [1])] ∧
    match_using_to_file_ids true "App.Services.Impl" [("App.Services", [1])] = [] := by
  refine ⟨?_, by decide, by decide, by decide, by decide⟩
  intro strict u ns_to_ids fid
  unfold match_using_to_file_ids
  have hstep :
      (fun (acc : List Nat) (p : String × List Nat) =>
        if strict then
          if p.1 = u ∨ strStartsWith p.1 (u ++ ".") = true then listUnion acc p.2 else acc
        else
          if p.1 = u ∨ strStartsWith p.1 (u ++ ".") = true ∨ strStartsWith u (p.1 ++ ".") = true then
            listUnion acc p.2
          else acc) =
      (fun (acc : List Nat) (p : String × List Nat) =>
        if (p.1 = u ∨ strStartsWith p.1 (u ++ ".") = true ∨
            (strict = false ∧ strStartsWith u (p.1 ++ ".") = true)) then
          listUnion acc p.2
        else acc) := by
    funext acc p
    cases strict <;> by_cases h1 : p.1 = u <;>
      by_cases h2 : strStartsWith p.1 (u ++ ".") = true <;>
      by_cases h3 : strStartsWith u (p.1 ++ ".") = true <;> simp [h1, h2, h3]
  rw [hstep,
    condUnion_foldl_mem
      (fun p => p.1 = u ∨ strStartsWith p.1 (u ++ ".") = true ∨
        (strict = false ∧ strStartsWith u (p.1 ++ ".") = true)) fid ns_to_ids []]
  simp

end AstConv

namespace AstConv

/-- Claim C7.  Relative import resolution: a specifier that does not start
with a path-relative marker resolves to zero targets; a relative
specifier resolves exactly to the existing candidates — the joined base
path with each recognized source extension, an `index` file of each
extension under the base directory, and the base itself when it is an
existing file — and to nothing when no candidate exists; every resolved
path exists. -/
theorem claim7_relative_import_resolution (existsF isFileF : String → Bool)
    (importer spec : String) :
    (strStartsWith spec "." = false →
      resolve_ts_import existsF isFileF importer spec = []) ∧
    (strStartsWith spec "." = true →
      (∀ e ∈ TS_EXTS, existsF (normJoin (parentDir importer) spec ++ e) = true →
        normJoin (parentDir importer) spec ++ e ∈
          resolve_ts_import existsF isFileF importer spec) ∧
      (∀ e ∈ TS_EXTS, existsF (normJoin (parentDir importer) spec ++ "/index" ++ e) = true →
        normJoin (parentDir importer) spec ++ "/index" ++ e ∈
          resolve_ts_import existsF isFileF importer spec) ∧
      ((existsF (normJoin (parentDir importer) spec) = true ∧
          isFileF (normJoin (parentDir importer) spec) = true) →
        normJoin (parentDir importer) spec ∈
          resolve_ts_import existsF isFileF importer spec) ∧
      (∀ p ∈ resolve_ts_import existsF isFileF importer spec, existsF p = true) ∧
      ((∀ e ∈ TS_EXTS, existsF (normJoin (parentDir importer) spec ++ e) = false ∧
          existsF (normJoin (parentDir importer) spec ++ "/index" ++ e) = false) →
        existsF (normJoin (parentDir importer) spec) = false ∨
          isFileF (normJoin (parentDir importer) spec) = false →
        resolve_ts_import existsF isFileF importer spec = [])) := by
  constructor
  · intro h
    unfold resolve_ts_import
    rw [if_pos]
    simp [h]
  · intro h
    unfold resolve_ts_import
    rw [if_neg (by simp [h])]
    refine ⟨?_, ?_, ?_, ?_, ?_⟩
    · intro e he hex
      rw [List.mem_filter]
      refine ⟨?_, hex⟩
      split
      · exact List.mem_cons_of_mem _ (List.mem_append_left _ (List.mem_map_of_mem _ he))
      · exact List.mem_append_left _ (List.mem_map_of_mem _ he)
    · intro e he hex
      rw [List.mem_filter]
      refine ⟨?_, hex⟩
      have hm : normJoin (parentDir importer) spec ++ "/index" ++ e ∈
          TS_EXTS.map (fun x => normJoin (parentDir importer) spec ++ "/index" ++ x) :=
        List.mem_map_of_mem _ he
      split
      · exact List.mem_cons_of_mem _ (List.mem_append_right _ hm)
      · exact List.mem_append_right _ hm
    · rintro ⟨hex, hfile⟩
      rw [List.mem_filter]
      refine ⟨?_, hex⟩
      rw [if_pos (by rw [hex, hfile]; rfl)]
      exact List.mem_cons_self _ _
    · intro p hp
      exact (List.mem_filter.mp hp).2
    · intro hall hbase
      rw [List.filter_eq_nil_iff]
      intro a ha
      have hmem : a ∈ (if existsF (normJoin (parentDir importer) spec) &&
            isFileF (normJoin (parentDir importer) spec) then
          normJoin (parentDir importer) spec ::
            (TS_EXTS.map (fun e => normJoin (parentDir importer) spec ++ e) ++
             TS_EXTS.map (fun e => normJoin (parentDir importer) spec ++ "/index" ++ e))
        else
          TS_EXTS.map (fun e => normJoin (parentDir importer) spec ++ e) ++
          TS_EXTS.map (fun e => normJoin (parentDir importer) spec ++ "/index" ++ e)) := ha
      by_cases hb : (existsF (normJoin (parentDir importer) spec) &&
          isFileF (normJoin (parentDir importer) spec)) = true
      · exfalso
        rcases hbase with h1 | h1 <;> simp [h1] at hb
      · rw [if_neg hb] at hmem
        rcases List.mem_append.mp hmem with hm | hm
        · obtain ⟨e, he, rfl⟩ := List.mem_map.mp hm
          simp [(hall e he).1]
        · obtain ⟨e, he, rfl⟩ := List.mem_map.mp hm
          have := (hall e he).2
          simp only [String.append_assoc] at this ⊢
          simp [this]

end AstConv

namespace AstConv

/-- Witness for claim C7 at a concrete input: with a file system
containing exactly `src/b.ts`, the importer `src/a.ts` with specifier
`./b` resolves to `src/b.ts`, discharging the relative-marker and
existence hypotheses of `claim7_relative_import_resolution`. -/
theorem claim7_witness :
    "src/b.ts" ∈ resolve_ts_import (fun s => s == "src/b.ts") (fun _ => false) "src/a.ts" "./b" := by
  have h := claim7_relative_import_resolution (fun s => s == "src/b.ts") (fun _ => false)
    "src/a.ts" "./b"
  have h2 := (h.2 (by decide)).1 ".ts" (by decide) (by decide)
  have e : normJoin (parentDir "src/a.ts") "./b" ++ ".ts" = "src/b.ts" := by decide
  rw [e] at h2
  exact h2

end AstConv

namespace AstConv

/-- A fold preserves any invariant its step preserves. -/
theorem foldl_invariant {α σ : Type} (P : σ → Prop) (g : σ → α → σ)
    (hg : ∀ s a, P s → P (g s a)) :
    ∀ (l : List α) (s : σ), P s → P (l.foldl g s) := by
  intro l
  induction l with
  | nil => intro s h; exact h
  | cons a as ih => intro s h; exact ih _ (hg s a h)

/-- A fold preserves any invariant its step preserves on list members. -/
theorem foldl_invariant_mem {α σ : Type} (P : σ → Prop) (g : σ → α → σ) :
    ∀ (l : List α), (∀ s a, a ∈ l → P s → P (g s a)) →
      ∀ (s : σ), P s → P (l.foldl g s) := by
  intro l
  induction l with
  | nil => intro _ s h; exact h
  | cons a as ih =>
    intro hg s h
    exact ih (fun s b hb => hg s b (List.mem_cons_of_mem a hb)) _
      (hg s a (List.mem_cons_self a as) h)

/-- A fold establishes `P` once it hits a distinguished element, provided
the step establishes `P` at that element and preserves `P` elsewhere. -/
theorem foldl_reach {α σ : Type} (P : σ → Prop) (g : σ → α → σ) (a0 : α)
    (hstep : ∀ s, P (g s a0)) (hkeep : ∀ s a, P s → P (g s a)) :
    ∀ (l : List α) (s : σ), a0 ∈ l → P (l.foldl g s) := by
  intro l
  induction l with
  | nil => intro s h; cases h
  | cons a as ih =>
    intro s h
    rw [List.foldl_cons]
    rcases List.mem_cons.mp h with rfl | h2
    · exact foldl_invariant P g hkeep as _ (hstep s)
    · exact ih _ h2

/-- Members of the incoming next level survive `addCandidates`. -/
theorem mem_addCandidates_of_mem (L : List (List String)) :
    ∀ (ds next : List String) (x : String), x ∈ next → x ∈ addCandidates L next ds := by
  intro ds
  induction ds with
  | nil => intro next x h; exact h
  | cons d ds ih =>
    intro next x h
    rw [addCandidates]
    split
    · exact ih _ x ((mem_listInsert x d next).mpr (Or.inr h))
    · exact ih _ x h

/-- A candidate absent from all current levels ends up in the next level. -/
theorem mem_addCandidates_self (L : List (List String)) :
    ∀ (ds next : List String) (d : String), d ∈ ds → (∀ l ∈ L, d ∉ l) →
      d ∈ addCandidates L next ds := by
  intro ds
  induction ds with
  | nil => intro next d h; cases h
  | cons e es ih =>
    intro next d h hg
    rcases List.mem_cons.mp h with rfl | h2
    · rw [addCandidates, if_pos hg]
      exact mem_addCandidates_of_mem L es _ d ((mem_listInsert d d next).mpr (Or.inl rfl))
    · rw [addCandidates]
      exact ih _ d h2 hg

/-- Everything `addCandidates` adds beyond the incoming next level is
absent from every current level. -/
theorem mem_addCandidates_cases (L : List (List String)) :
    ∀ (ds next : List String) (x : String), x ∈ addCandidates L next ds →
      x ∈ next ∨ (∀ l ∈ L, x ∉ l) := by
  intro ds
  induction ds with
  | nil => intro next x h; exact Or.inl h
  | cons d ds ih =>
    intro next x h
    rw [addCandidates] at h
    rcases ih _ x h with hx | hx
    · by_cases hg : ∀ l ∈ L, d ∉ l
      · rw [if_pos hg] at hx
        rcases (mem_listInsert x d next).mp hx with rfl | hx2
        · exact Or.inr hg
        · exact Or.inl hx2
      · rw [if_neg hg] at hx
        exact Or.inl hx
    · exact Or.inr hx

/-- Members of the incoming next level survive `depProcessLevel`. -/
theorem depProcessLevel_next_mono (existsF isFileF : String → Bool) (idxs : DepIdxs)
    (L : List (List String)) :
    ∀ (fs next visited : List String) (x : String), x ∈ next →
      x ∈ (depProcessLevel existsF isFileF idxs L fs next visited).1 := by
  intro fs
  induction fs with
  | nil => intro next visited x h; exact h
  | cons f fs ih =>
    intro next visited x h
    rw [depProcessLevel]
    split
    · exact ih _ _ x h
    · split
      · exact ih _ _ x (mem_addCandidates_of_mem L _ next x h)
      · exact ih _ _ x h

/-- If an unvisited, existing file of the current level has a direct edge
to a target absent from every current level, the target lands in the
next level. -/
theorem depProcessLevel_reach (existsF isFileF : String → Bool) (idxs : DepIdxs)
    (L : List (List String)) (B C : String)
    (hBex : existsF B = true) (hBC : C ∈ stepDirect existsF isFileF idxs B)
    (hCL : ∀ l ∈ L, C ∉ l) :
    ∀ (fs next visited : List String), B ∈ fs → B ∉ visited →
      C ∈ (depProcessLevel existsF isFileF idxs L fs next visited).1 := by
  intro fs
  induction fs with
  | nil => intro next visited h; cases h
  | cons f fs ih =>
    intro next visited hB hBv
    by_cases hfB : f = B
    · subst hfB
      rw [depProcessLevel, if_neg hBv, if_pos hBex]
      exact depProcessLevel_next_mono existsF isFileF idxs L fs _ _ C
        (mem_addCandidates_self L _ next C hBC hCL)
    · have hB2 : B ∈ fs := by
        rcases List.mem_cons.mp hB with h | h
        · exact absurd h.symm hfB
        · exact h
      rw [depProcessLevel]
      split
      · exact ih _ _ hB2 hBv
      · have hBv2 : B ∉ visited ++ [f] := by
          intro hmem
          rcases List.mem_append.mp hmem with hm | hm
          · exact hBv hm
          · exact hfB (List.mem_singleton.mp hm).symm
        split
        · exact ih _ _ hB2 hBv2
        · exact ih _ _ hB2 hBv2

/-- Claim C4.  Bounded breadth-first expansion: if `A` has a direct
(level-1) edge to `B`, `B` exists and has a direct edge to `C`, and `A`
has no direct edge to `C`, then with `N = 2` the file `C` lands in `A`'s
level-2 set and not in its level-1 set, and with `N = 1` it appears in
no level set of `A` at all. -/
theorem claim4_bounded_bfs (existsF isFileF : String → Bool) (idxs : DepIdxs)
    (A B C : String)
    (hAB : B ∈ rootLevel1 existsF isFileF idxs A)
    (hBex : existsF B = true)
    (hBC : C ∈ stepDirect existsF isFileF idxs B)
    (hAC : C ∉ rootLevel1 existsF isFileF idxs A) :
    C ∈ levelGet (compute_dependencies_for_file existsF isFileF idxs A 2) 2 ∧
    C ∉ levelGet (compute_dependencies_for_file existsF isFileF idxs A 2) 1 ∧
    ∀ l ∈ compute_dependencies_for_file existsF isFileF idxs A 1, C ∉ l := by
  have hCL : ∀ l ∈ [rootLevel1 existsF isFileF idxs A], C ∉ l := by
    intro l hl
    rw [List.mem_singleton.mp hl]
    exact hAC
  refine ⟨?_, ?_, ?_⟩
  · show C ∈ (depProcessLevel existsF isFileF idxs [rootLevel1 existsF isFileF idxs A]
      (rootLevel1 existsF isFileF idxs A) [] []).1
    exact depProcessLevel_reach existsF isFileF idxs _ B C hBex hBC hCL _ [] [] hAB
      (by simp)
  · exact hAC
  · intro l hl
    have : compute_dependencies_for_file existsF isFileF idxs A 1 =
        [[], rootLevel1 existsF isFileF idxs A] := rfl
    rw [this] at hl
    rcases List.mem_cons.mp hl with rfl | hl2
    · simp
    · rw [List.mem_singleton.mp hl2]
      exact hAC

/-- Witness for claim C4: three C# files `a.cs → b.cs → c.cs` linked by
namespace usings; `c.cs` appears at level 2 of `a.cs` under `N = 2`. -/
theorem claim4_witness :
    "c.cs" ∈ levelGet (compute_dependencies_for_file (fun _ => true) (fun _ => true)
      ⟨[], [("a.cs", ["NB"]), ("b.cs", ["NC"])], [], [],
       [("NB", ["b.cs"]), ("NC", ["c.cs"])], []⟩ "a.cs" 2) 2 :=
  (claim4_bounded_bfs (fun _ => true) (fun _ => true)
    ⟨[], [("a.cs", ["NB"]), ("b.cs", ["NC"])], [], [],
     [("NB", ["b.cs"]), ("NC", ["c.cs"])], []⟩ "a.cs" "b.cs" "c.cs"
    (by decide) (by decide) (by decide) (by decide)).1

end AstConv

namespace AstConv

/-- Everything in the next level built by `depProcessLevel` either was
already there or is absent from every current level. -/
theorem depProcessLevel_next_guard (existsF isFileF : String → Bool) (idxs : DepIdxs)
    (L : List (List String)) :
    ∀ (fs next visited : List String),
      (∀ x ∈ next, ∀ l ∈ L, x ∉ l) →
      ∀ x ∈ (depProcessLevel existsF isFileF idxs L fs next visited).1, ∀ l ∈ L, x ∉ l := by
  intro fs
  induction fs with
  | nil => intro next visited h; exact h
  | cons f fs ih =>
    intro next visited h
    rw [depProcessLevel]
    split
    · exact ih _ _ h
    · split
      · refine ih _ _ ?_
        intro x hx
        rcases mem_addCandidates_cases L _ next x hx with hx2 | hx2
        · exact h x hx2
        · exact hx2
      · exact ih _ _ h

/-- Everything in the next level built by `mcProcessLevel` either was
already there or is absent from every current level. -/
theorem mcProcessLevel_next_guard (expandItem : String → List String)
    (L : List (List String)) :
    ∀ (items next : List String),
      (∀ x ∈ next, ∀ l ∈ L, x ∉ l) →
      ∀ x ∈ mcProcessLevel expandItem L items next, ∀ l ∈ L, x ∉ l := by
  intro items
  induction items with
  | nil => intro next h; exact h
  | cons item items ih =>
    intro next h
    rw [mcProcessLevel]
    refine ih _ ?_
    intro x hx
    rcases mem_addCandidates_cases L _ next x hx with hx2 | hx2
    · exact h x hx2
    · exact hx2

/-- Appending a level that avoids every existing level preserves pairwise
disjointness. -/
theorem pairwise_disj_snoc (M : List (List String)) (next : List String)
    (hM : List.Pairwise LevelsDisj M)
    (hnext : ∀ x ∈ next, ∀ l ∈ M, x ∉ l) :
    List.Pairwise LevelsDisj (M ++ [next]) := by
  rw [List.pairwise_append]
  refine ⟨hM, List.pairwise_singleton _ _, ?_⟩
  intro a ha b hb x hxa
  rw [List.mem_singleton.mp hb]
  intro hxn
  exact hnext x hxn a ha hxa

/-- Pairwise disjointness of the levels produced by `depExpand`. -/
theorem depExpand_disjoint (existsF isFileF : String → Bool) (idxs : DepIdxs) :
    ∀ (n : Nat) (prev : List (List String)) (cur visited : List String),
      List.Pairwise LevelsDisj (prev ++ [cur]) →
      List.Pairwise LevelsDisj (depExpand existsF isFileF idxs prev cur visited n) := by
  intro n
  induction n with
  | zero => intro prev cur visited h; exact h
  | succ n ih =>
    intro prev cur visited h
    rw [depExpand]
    refine ih _ _ _ ?_
    refine pairwise_disj_snoc _ _ h ?_
    intro x hx
    exact depProcessLevel_next_guard existsF isFileF idxs _ cur [] visited
      (by intro y hy; cases hy) x hx

/-- Pairwise disjointness of the levels produced by `mcExpand`. -/
theorem mcExpand_disjoint (expandItem : String → List String) :
    ∀ (n : Nat) (prev : List (List String)) (cur : List String),
      List.Pairwise LevelsDisj (prev ++ [cur]) →
      List.Pairwise LevelsDisj (mcExpand expandItem prev cur n) := by
  intro n
  induction n with
  | zero => intro prev cur h; exact h
  | succ n ih =>
    intro prev cur h
    rw [mcExpand]
    refine ih _ _ ?_
    refine pairwise_disj_snoc _ _ h ?_
    intro x hx
    exact mcProcessLevel_next_guard expandItem _ cur []
      (by intro y hy; cases hy) x hx

/-- Prepending the unused empty level-0 set preserves pairwise
disjointness. -/
theorem pairwise_disj_cons_nil (ls : List (List String))
    (h : List.Pairwise LevelsDisj ls) :
    List.Pairwise LevelsDisj ([] :: ls) := by
  refine List.Pairwise.cons ?_ h
  intro b _ x hx
  cases hx

/-- Claim C3.  Disjoint leveling and idempotence: for every root file the
level sets computed by `compute_dependencies_for_file` are pairwise
disjoint (a target reached at some level is never added again at any
later level), for every root method the level sets computed by
`compute_method_calls_for_file` are pairwise disjoint, and recomputing
either expansion over the same frozen indexes and configuration yields
the identical level assignment (the embedded computations are pure
functions of the frozen indexes, so determinism is definitional). -/
theorem claim3_levels_pairwise_disjoint_and_deterministic
    (existsF isFileF : String → Bool) (idxs : DepIdxs) (relpath : String)
    (cs_methods : List (String × List (String × String)))
    (method_decl_map : List (String × List String)) (maxL : Nat)
    (_hN : 1 ≤ maxL) :
    List.Pairwise LevelsDisj
      (compute_dependencies_for_file existsF isFileF idxs relpath maxL) ∧
    (∀ p ∈ compute_method_calls_for_file relpath cs_methods method_decl_map maxL,
      List.Pairwise LevelsDisj p.2) ∧
    compute_dependencies_for_file existsF isFileF idxs relpath maxL =
      compute_dependencies_for_file existsF isFileF idxs relpath maxL ∧
    compute_method_calls_for_file relpath cs_methods method_decl_map maxL =
      compute_method_calls_for_file relpath cs_methods method_decl_map maxL := by
  refine ⟨?_, ?_, rfl, rfl⟩
  · show List.Pairwise LevelsDisj ([] :: depExpand existsF isFileF idxs []
      (rootLevel1 existsF isFileF idxs relpath) [] (maxL - 1))
    refine pairwise_disj_cons_nil _ ?_
    refine depExpand_disjoint existsF isFileF idxs _ [] _ [] ?_
    exact List.pairwise_singleton _ _
  · unfold compute_method_calls_for_file
    refine foldl_invariant
      (fun (res : List (String × List (List String))) =>
        ∀ p ∈ res, List.Pairwise LevelsDisj p.2) _
      ?_ _ [] (by intro p hp; cases hp)
    intro res q hres p hp
    rcases List.mem_append.mp hp with hp2 | hp2
    · exact hres p hp2
    · rw [List.mem_singleton.mp hp2]
      refine pairwise_disj_cons_nil _ ?_
      refine mcExpand_disjoint _ _ [] _ ?_
      exact List.pairwise_singleton _ _

/-- Witness for claim C3 at concrete inputs: the `a.cs → b.cs → c.cs`
dependency chain and the recursive-method call graph both yield pairwise
disjoint level sets. -/
theorem claim3_witness :
    List.Pairwise LevelsDisj (compute_dependencies_for_file (fun _ => true) (fun _ => true)
      ⟨[], [("a.cs", ["NB"]), ("b.cs", ["NC"])], [], [],
       [("NB", ["b.cs"]), ("NC", ["c.cs"])], []⟩ "a.cs" 2) ∧
    (∀ p ∈ compute_method_calls_for_file "a.cs" [("a.cs", [("M", " return M(); ")])]
        [("M", ["a.cs"])] 3, List.Pairwise LevelsDisj p.2) :=
  ⟨(claim3_levels_pairwise_disjoint_and_deterministic (fun _ => true) (fun _ => true)
      ⟨[], [("a.cs", ["NB"]), ("b.cs", ["NC"])], [], [],
       [("NB", ["b.cs"]), ("NC", ["c.cs"])], []⟩ "a.cs" [] [] 2 (by decide)).1,
   (claim3_levels_pairwise_disjoint_and_deterministic (fun _ => true) (fun _ => true)
      ⟨[], [], [], [], [], []⟩ "a.cs" [("a.cs", [("M", " return M(); ")])]
      [("M", ["a.cs"])] 3 (by decide)).2.1⟩

end AstConv

namespace AstConv

/-- `tryAdd` preserves seen-closure (every edge target is seen) together
with pairwise target-distinctness of the emitted edges. -/
theorem tryAdd_pres_Q (recId : Nat) (skip : Nat → Bool) (fid : Nat) (reason sym : String)
    (st : PState)
    (h : (∀ e ∈ st.matched, e.1 ∈ st.seen) ∧ st.matched.Pairwise EdgeNoDup) :
    (∀ e ∈ (tryAdd recId skip fid reason sym st).matched,
      e.1 ∈ (tryAdd recId skip fid reason sym st).seen) ∧
    (tryAdd recId skip fid reason sym st).matched.Pairwise EdgeNoDup := by
  unfold tryAdd
  split
  · rename_i hg
    constructor
    · intro e he
      rcases List.mem_append.mp he with he2 | he2
      · exact List.mem_append_left _ (h.1 e he2)
      · rw [List.mem_singleton.mp he2]
        exact List.mem_append_right _ (List.mem_singleton_self fid)
    · rw [List.pairwise_append]
      refine ⟨h.2, List.pairwise_singleton _ _, ?_⟩
      intro a ha b hb
      rw [List.mem_singleton.mp hb]
      intro _
      show a.1 ≠ fid
      intro hcontra
      exact hg.1 (hcontra ▸ h.1 a ha)
  · exact h

/-- `addAll` preserves seen-closure and pairwise target-distinctness. -/
theorem addAll_pres_Q (recId : Nat) (skip : Nat → Bool) (reason sym : String)
    (fids : List Nat) (st : PState)
    (h : (∀ e ∈ st.matched, e.1 ∈ st.seen) ∧ st.matched.Pairwise EdgeNoDup) :
    (∀ e ∈ (addAll recId skip reason sym fids st).matched,
      e.1 ∈ (addAll recId skip reason sym fids st).seen) ∧
    (addAll recId skip reason sym fids st).matched.Pairwise EdgeNoDup := by
  unfold addAll
  exact foldl_invariant (fun (s : PState) => (∀ e ∈ s.matched, e.1 ∈ s.seen) ∧ s.matched.Pairwise EdgeNoDup) _ (fun s fid hs => tryAdd_pres_Q recId skip fid reason sym s hs)
    fids st h

/-- `addLookup` preserves seen-closure and pairwise target-distinctness. -/
theorem addLookup_pres_Q (recId : Nat) (skip : Nat → Bool) (reason : String)
    (idx : List (String × List Nat)) (key sym : String) (st : PState)
    (h : (∀ e ∈ st.matched, e.1 ∈ st.seen) ∧ st.matched.Pairwise EdgeNoDup) :
    (∀ e ∈ (addLookup recId skip reason idx key sym st).matched,
      e.1 ∈ (addLookup recId skip reason idx key sym st).seen) ∧
    (addLookup recId skip reason idx key sym st).matched.Pairwise EdgeNoDup := by
  unfold addLookup
  cases alookup idx key with
  | some fids => exact addAll_pres_Q recId skip reason _ fids st h
  | none => exact h

/-- `stage1` preserves seen-closure and pairwise target-distinctness. -/
theorem stage1_pres_Q (recId : Nat) (skip : Nat → Bool) (cidx : List (String × List Nat))
    (di : List (String × List String)) (params : List String) (st0 : PState)
    (h : (∀ e ∈ st0.matched, e.1 ∈ st0.seen) ∧ st0.matched.Pairwise EdgeNoDup) :
    (∀ e ∈ (stage1 recId skip cidx di params st0).matched,
      e.1 ∈ (stage1 recId skip cidx di params st0).seen) ∧
    (stage1 recId skip cidx di params st0).matched.Pairwise EdgeNoDup := by
  unfold stage1
  refine foldl_invariant (fun (s : PState) => (∀ e ∈ s.matched, e.1 ∈ s.seen) ∧ s.matched.Pairwise EdgeNoDup) _ ?_ params st0 h
  intro s t hs
  have h1 := addLookup_pres_Q recId skip "param" cidx t t s hs
  cases alookup di t with
  | some impls =>
    exact foldl_invariant _ _
      (fun s2 impl h2 => addLookup_pres_Q recId skip "di" cidx impl (t ++ "->" ++ impl) s2 h2)
      impls _ h1
  | none => exact h1

/-- `stage2` preserves seen-closure and pairwise target-distinctness. -/
theorem stage2_pres_Q (recId : Nat) (skip : Nat → Bool) (cidx : List (String × List Nat))
    (new_types : List String) (st0 : PState)
    (h : (∀ e ∈ st0.matched, e.1 ∈ st0.seen) ∧ st0.matched.Pairwise EdgeNoDup) :
    (∀ e ∈ (stage2 recId skip cidx new_types st0).matched,
      e.1 ∈ (stage2 recId skip cidx new_types st0).seen) ∧
    (stage2 recId skip cidx new_types st0).matched.Pairwise EdgeNoDup := by
  unfold stage2
  exact foldl_invariant (fun (s : PState) => (∀ e ∈ s.matched, e.1 ∈ s.seen) ∧ s.matched.Pairwise EdgeNoDup) _
    (fun s tn hs => addLookup_pres_Q recId skip "new" cidx tn tn s hs) new_types st0 h

/-- `stage3` preserves seen-closure and pairwise target-distinctness. -/
theorem stage3_pres_Q (recId : Nat) (skip : Nat → Bool)
    (cidx method_idx : List (String × List Nat)) (var_map : List (String × String))
    (invs : List (String × String)) (st0 : PState)
    (h : (∀ e ∈ st0.matched, e.1 ∈ st0.seen) ∧ st0.matched.Pairwise EdgeNoDup) :
    (∀ e ∈ (stage3 recId skip cidx method_idx var_map invs st0).matched,
      e.1 ∈ (stage3 recId skip cidx method_idx var_map invs st0).seen) ∧
    (stage3 recId skip cidx method_idx var_map invs st0).matched.Pairwise EdgeNoDup := by
  unfold stage3
  refine foldl_invariant
    (fun (s : PState) => (∀ e ∈ s.matched, e.1 ∈ s.seen) ∧ s.matched.Pairwise EdgeNoDup) _
    ?_ invs st0 h
  intro s inv hs
  have hq : ∀ (s1 : PState) (q : String),
      ((∀ e ∈ s1.matched, e.1 ∈ s1.seen) ∧ s1.matched.Pairwise EdgeNoDup) →
      ((∀ e ∈ (if q ≠ "" ∧ headIs Char.isUpper q = true then
            addLookup recId skip "qualifier" cidx q q s1 else s1).matched,
        e.1 ∈ (if q ≠ "" ∧ headIs Char.isUpper q = true then
            addLookup recId skip "qualifier" cidx q q s1 else s1).seen) ∧
        (if q ≠ "" ∧ headIs Char.isUpper q = true then
            addLookup recId skip "qualifier" cidx q q s1 else s1).matched.Pairwise EdgeNoDup) := by
    intro s1 q h1
    split
    · exact addLookup_pres_Q recId skip "qualifier" cidx q q s1 h1
    · exact h1
  refine foldl_invariant
    (fun (s2 : PState) => (∀ e ∈ s2.matched, e.1 ∈ s2.seen) ∧ s2.matched.Pairwise EdgeNoDup) _
    ?_ _ _ (addLookup_pres_Q recId skip "method" method_idx _ _ _ (hq s _ hs))
  intro s2 a h2
  cases alookup var_map a with
  | some t => exact addLookup_pres_Q recId skip "argvar" cidx t t s2 h2
  | none => exact h2

/-- `stage5` preserves seen-closure and pairwise target-distinctness. -/
theorem stage5_pres_Q (recId : Nat) (skip : Nat → Bool) (cidx : List (String × List Nat))
    (records_g : List SrcRec) (params new_types : List String) (st0 : PState)
    (h : (∀ e ∈ st0.matched, e.1 ∈ st0.seen) ∧ st0.matched.Pairwise EdgeNoDup) :
    (∀ e ∈ (stage5 recId skip cidx records_g params new_types st0).matched,
      e.1 ∈ (stage5 recId skip cidx records_g params new_types st0).seen) ∧
    (stage5 recId skip cidx records_g params new_types st0).matched.Pairwise EdgeNoDup := by
  unfold stage5
  refine foldl_invariant (fun (s : PState) => (∀ e ∈ s.matched, e.1 ∈ s.seen) ∧ s.matched.Pairwise EdgeNoDup) _ ?_ _ st0 h
  intro s t hs
  cases alookup cidx t with
  | some _ => exact hs
  | none =>
    refine foldl_invariant (fun (s : PState) => (∀ e ∈ s.matched, e.1 ∈ s.seen) ∧ s.matched.Pairwise EdgeNoDup) _ ?_ records_g s hs
    intro s2 r h2
    split
    · exact tryAdd_pres_Q recId skip r.id "filename" t s2 h2
    · exact h2

/-- The candidates gathered by the `using` stage all have targets outside
the seen set frozen before the stage. -/
theorem stage4_cands_not_seen (strict : Bool) (recId : Nat) (excl : List String)
    (records_g : List SrcRec) (ns_to_ids : List (String × List Nat))
    (usings : List String) (seen0 : List Nat) :
    ∀ c ∈ usings.foldl
        (fun cs u =>
          (match_using_to_file_ids strict u ns_to_ids).foldl
            (fun cs2 fid =>
              if fid ∉ seen0 ∧ fid ≠ recId then
                if usingSkip excl records_g fid then cs2 else cs2 ++ [(fid, u)]
              else cs2) cs) [],
      c.1 ∉ seen0 := by
  refine foldl_invariant (fun (cs : List (Nat × String)) => ∀ c ∈ cs, c.1 ∉ seen0) _ ?_
    usings [] (by intro c hc; cases hc)
  intro cs u hcs
  refine foldl_invariant (fun (cs2 : List (Nat × String)) => ∀ c ∈ cs2, c.1 ∉ seen0) _ ?_
    _ cs hcs
  intro cs2 fid h2
  split
  · rename_i hg
    split
    · exact h2
    · intro c hc
      rcases List.mem_append.mp hc with hc2 | hc2
      · exact h2 c hc2
      · rw [List.mem_singleton.mp hc2]
        exact hg.1
  · exact h2

/-- `stage4` preserves seen-closure and pairwise target-distinctness: every
appended `using` edge targets a file outside the frozen pre-stage seen
set, while every existing non-`using` edge targets a file inside it. -/
theorem stage4_pres_Q (strict noUsingOnly : Bool) (recId : Nat) (excl : List String)
    (records_g : List SrcRec) (ns_to_ids : List (String × List Nat))
    (usings : List String) (st0 : PState)
    (h : (∀ e ∈ st0.matched, e.1 ∈ st0.seen) ∧ st0.matched.Pairwise EdgeNoDup) :
    (∀ e ∈ (stage4 strict noUsingOnly recId excl records_g ns_to_ids usings st0).matched,
      e.1 ∈ (stage4 strict noUsingOnly recId excl records_g ns_to_ids usings st0).seen) ∧
    (stage4 strict noUsingOnly recId excl records_g ns_to_ids usings st0).matched.Pairwise
      EdgeNoDup := by
  unfold stage4
  have hcands := stage4_cands_not_seen strict recId excl records_g ns_to_ids usings st0.seen
  have hfold :
      ∀ (cands : List (Nat × String)), (∀ c ∈ cands, c.1 ∉ st0.seen) →
      ∀ (s : PState),
        ((∀ e ∈ s.matched, e.1 ∈ s.seen) ∧ s.matched.Pairwise EdgeNoDup ∧
          (∀ e ∈ s.matched, e.2.1 ≠ "using" → e.1 ∈ st0.seen)) →
        ((∀ e ∈ (cands.foldl
            (fun st c =>
              if c.1 ∈ st.seen ∨ noUsingOnly = false then
                { matched := st.matched ++ [(c.1, "using", c.2)], seen := st.seen ++ [c.1] }
              else st) s).matched,
          e.1 ∈ (cands.foldl
            (fun st c =>
              if c.1 ∈ st.seen ∨ noUsingOnly = false then
                { matched := st.matched ++ [(c.1, "using", c.2)], seen := st.seen ++ [c.1] }
              else st) s).seen) ∧
          (cands.foldl
            (fun st c =>
              if c.1 ∈ st.seen ∨ noUsingOnly = false then
                { matched := st.matched ++ [(c.1, "using", c.2)], seen := st.seen ++ [c.1] }
              else st) s).matched.Pairwise EdgeNoDup ∧
          (∀ e ∈ (cands.foldl
            (fun st c =>
              if c.1 ∈ st.seen ∨ noUsingOnly = false then
                { matched := st.matched ++ [(c.1, "using", c.2)], seen := st.seen ++ [c.1] }
              else st) s).matched, e.2.1 ≠ "using" → e.1 ∈ st0.seen)) := by
    intro cands
    induction cands with
    | nil => intro _ s hs; exact hs
    | cons c cs ih =>
      intro hc s hs
      rw [List.foldl_cons]
      refine ih (fun d hd => hc d (List.mem_cons_of_mem c hd)) _ ?_
      split
      · refine ⟨?_, ?_, ?_⟩
        · intro e he
          rcases List.mem_append.mp he with he2 | he2
          · exact List.mem_append_left _ (hs.1 e he2)
          · rw [List.mem_singleton.mp he2]
            exact List.mem_append_right _ (List.mem_singleton_self c.1)
        · rw [List.pairwise_append]
          refine ⟨hs.2.1, List.pairwise_singleton _ _, ?_⟩
          intro a ha b hb
          rw [List.mem_singleton.mp hb]
          intro hne hcontra
          have hnu : a.2.1 ≠ "using" := by
            rcases hne with hne2 | hne2
            · exact hne2
            · exact absurd rfl hne2
          exact hc c (List.mem_cons_self c cs) (hcontra ▸ hs.2.2 a ha hnu)
        · intro e he hnu
          rcases List.mem_append.mp he with he2 | he2
          · exact hs.2.2 e he2 hnu
          · rw [List.mem_singleton.mp he2] at hnu
            exact absurd rfl hnu
      · exact hs
  have hres := hfold _ hcands st0 ⟨h.1, h.2, fun e he _ => h.1 e he⟩
  exact ⟨hres.1, hres.2.1⟩

/-- Claim C2, amended.  In the level-1 edge list produced by
`process_record_imports` for one source record, any two edges of which at
least one was produced by a non-`using` heuristic have distinct targets:
non-`using` edges are never duplicated, keep the first-seen match reason,
and never coexist with a `using` edge to the same target.  (Only several
distinct `using` values can yield several edges to one target, as the
counterexample shows.) -/
theorem claim2_amended_no_duplicates_except_using (strict noUsingOnly : Bool)
    (excl : List String) (records_g : List SrcRec) (rec : SrcRec)
    (class_idx method_idx : List (String × List Nat))
    (di_map : List (String × List String)) (ns_to_ids : List (String × List Nat)) :
    ((process_record_imports strict noUsingOnly excl records_g rec class_idx method_idx
        di_map ns_to_ids).2.2).Pairwise EdgeNoDup := by
  unfold process_record_imports
  have h0 : (∀ e ∈ (⟨[], []⟩ : PState).matched, e.1 ∈ (⟨[], []⟩ : PState).seen) ∧
      (⟨[], []⟩ : PState).matched.Pairwise EdgeNoDup := by
    exact ⟨(by intro e he; cases he), List.Pairwise.nil⟩
  exact (stage5_pres_Q _ _ _ _ _ _ _
    (stage4_pres_Q _ _ _ _ _ _ _ _
      (stage3_pres_Q _ _ _ _ _ _ _
        (stage2_pres_Q _ _ _ _ _
          (stage1_pres_Q _ _ _ _ _ _ h0))))).2

end AstConv

namespace AstConv

/-- `tryAdd` only appends to the seen set. -/
theorem tryAdd_seen_mono (recId : Nat) (skip : Nat → Bool) (fid0 : Nat) (reason sym : String)
    (st : PState) (x : Nat) (h : x ∈ st.seen) :
    x ∈ (tryAdd recId skip fid0 reason sym st).seen := by
  unfold tryAdd
  split
  · exact List.mem_append_left _ h
  · exact h

/-- `tryAdd` only appends to the edge list. -/
theorem tryAdd_matched_mono (recId : Nat) (skip : Nat → Bool) (fid0 : Nat) (reason sym : String)
    (st : PState) (e : Nat × String × String) (h : e ∈ st.matched) :
    e ∈ (tryAdd recId skip fid0 reason sym st).matched := by
  unfold tryAdd
  split
  · exact List.mem_append_left _ h
  · exact h

/-- After `tryAdd` targets `fid`, the id `fid` is seen (unless it is the
record itself or excluded). -/
theorem tryAdd_target_seen (recId : Nat) (skip : Nat → Bool) (fid : Nat) (reason sym : String)
    (st : PState) (hne : fid ≠ recId) (hskip : skip fid = false) :
    fid ∈ (tryAdd recId skip fid reason sym st).seen := by
  unfold tryAdd
  split
  · exact List.mem_append_right _ (List.mem_singleton_self fid)
  · rename_i hg
    by_cases hmem : fid ∈ st.seen
    · exact hmem
    · exact absurd ⟨hmem, hne, hskip⟩ hg

/-- `addAll` only appends to the seen set. -/
theorem addAll_seen_mono (recId : Nat) (skip : Nat → Bool) (reason sym : String)
    (fids : List Nat) (st : PState) (x : Nat) (h : x ∈ st.seen) :
    x ∈ (addAll recId skip reason sym fids st).seen := by
  unfold addAll
  exact foldl_invariant (fun (s : PState) => x ∈ s.seen) _
    (fun s fid hs => tryAdd_seen_mono recId skip fid reason sym s x hs) fids st h

/-- `addAll` only appends to the edge list. -/
theorem addAll_matched_mono (recId : Nat) (skip : Nat → Bool) (reason sym : String)
    (fids : List Nat) (st : PState) (e : Nat × String × String) (h : e ∈ st.matched) :
    e ∈ (addAll recId skip reason sym fids st).matched := by
  unfold addAll
  exact foldl_invariant (fun (s : PState) => e ∈ s.matched) _
    (fun s fid hs => tryAdd_matched_mono recId skip fid reason sym s e hs) fids st h

/-- `addAll` over a list containing `fid` puts `fid` into the seen set. -/
theorem addAll_reach (recId : Nat) (skip : Nat → Bool) (reason sym : String)
    (fids : List Nat) (st : PState) (fid : Nat)
    (hfid : fid ∈ fids) (hne : fid ≠ recId) (hskip : skip fid = false) :
    fid ∈ (addAll recId skip reason sym fids st).seen := by
  unfold addAll
  refine foldl_reach (fun (s : PState) => fid ∈ s.seen) _ fid
    (fun s => tryAdd_target_seen recId skip fid reason sym s hne hskip)
    (fun s a hs => tryAdd_seen_mono recId skip a reason sym s fid hs) fids st hfid

/-- `addLookup` only appends to the seen set. -/
theorem addLookup_seen_mono (recId : Nat) (skip : Nat → Bool) (reason : String)
    (idx : List (String × List Nat)) (key sym : String) (st : PState) (x : Nat)
    (h : x ∈ st.seen) : x ∈ (addLookup recId skip reason idx key sym st).seen := by
  unfold addLookup
  cases alookup idx key with
  | some fids => exact addAll_seen_mono recId skip reason sym fids st x h
  | none => exact h

/-- `addLookup` only appends to the edge list. -/
theorem addLookup_matched_mono (recId : Nat) (skip : Nat → Bool) (reason : String)
    (idx : List (String × List Nat)) (key sym : String) (st : PState)
    (e : Nat × String × String) (h : e ∈ st.matched) :
    e ∈ (addLookup recId skip reason idx key sym st).matched := by
  unfold addLookup
  cases alookup idx key with
  | some fids => exact addAll_matched_mono recId skip reason sym fids st e h
  | none => exact h

/-- When the looked-up declaration list contains `fid`, `addLookup` puts
`fid` into the seen set. -/
theorem addLookup_reach (recId : Nat) (skip : Nat → Bool) (reason : String)
    (idx : List (String × List Nat)) (key sym : String) (st : PState)
    (fids : List Nat) (fid : Nat)
    (hlk : alookup idx key = some fids) (hfid : fid ∈ fids)
    (hne : fid ≠ recId) (hskip : skip fid = false) :
    fid ∈ (addLookup recId skip reason idx key sym st).seen := by
  unfold addLookup
  rw [hlk]
  exact addAll_reach recId skip reason sym fids st fid hfid hne hskip

/-- Processing a parameter type whose DI binding resolves to a declaration
list containing `fid` puts `fid` into the seen set of `stage1`. -/
theorem stage1_reach (recId : Nat) (skip : Nat → Bool) (cidx : List (String × List Nat))
    (di : List (String × List String)) (params : List String) (st0 : PState)
    (iface impl : String) (impls : List String) (fids : List Nat) (fid : Nat)
    (hiface : iface ∈ params)
    (hdi : alookup di iface = some impls) (himpl : impl ∈ impls)
    (hcls : alookup cidx impl = some fids) (hfid : fid ∈ fids)
    (hne : fid ≠ recId) (hskip : skip fid = false) :
    fid ∈ (stage1 recId skip cidx di params st0).seen := by
  unfold stage1
  refine foldl_reach (fun (s : PState) => fid ∈ s.seen) _ iface ?_ ?_ params st0 hiface
  · intro s
    rw [hdi]
    refine foldl_reach (fun (s2 : PState) => fid ∈ s2.seen) _ impl ?_ ?_ impls _ himpl
    · intro s2
      exact addLookup_reach recId skip "di" cidx impl (iface ++ "->" ++ impl) s2 fids fid
        hcls hfid hne hskip
    · intro s2 a hs2
      exact addLookup_seen_mono recId skip "di" cidx a (iface ++ "->" ++ a) s2 fid hs2
  · intro s t hs
    have h1 := addLookup_seen_mono recId skip "param" cidx t t s fid hs
    cases alookup di t with
    | some impls2 =>
      exact foldl_invariant (fun (s2 : PState) => fid ∈ s2.seen) _
        (fun s2 a hs2 => addLookup_seen_mono recId skip "di" cidx a (t ++ "->" ++ a) s2 fid hs2)
        impls2 _ h1
    | none => exact h1

/-- Through `stage1`, whenever `fid` becomes seen it is either seen from the
start or carries a `di` edge, provided no parameter type resolves to `fid`
directly (so the `param` heuristic can never add it). -/
theorem stage1_seen_implies_di (recId : Nat) (skip : Nat → Bool)
    (cidx : List (String × List Nat)) (di : List (String × List String))
    (params : List String) (st0 : PState) (fid : Nat)
    (hparam : ∀ t ∈ params, fid ∉ alookupD cidx t []) :
    fid ∈ (stage1 recId skip cidx di params st0).seen →
      fid ∈ st0.seen ∨ ∃ sym, (fid, "di", sym) ∈ (stage1 recId skip cidx di params st0).matched := by
  unfold stage1
  have key : ∀ (l : List String), (∀ t ∈ l, fid ∉ alookupD cidx t []) → ∀ (s : PState),
      (fid ∈ s.seen → (fid ∈ st0.seen ∨ ∃ sym, (fid, "di", sym) ∈ s.matched)) →
      (fid ∈ (l.foldl
          (fun st t =>
            let st1 := addLookup recId skip "param" cidx t t st
            match alookup di t with
            | some impls => impls.foldl
                (fun s impl => addLookup recId skip "di" cidx impl (t ++ "->" ++ impl) s) st1
            | none => st1) s).seen →
        (fid ∈ st0.seen ∨ ∃ sym, (fid, "di", sym) ∈ (l.foldl
          (fun st t =>
            let st1 := addLookup recId skip "param" cidx t t st
            match alookup di t with
            | some impls => impls.foldl
                (fun s impl => addLookup recId skip "di" cidx impl (t ++ "->" ++ impl) s) st1
            | none => st1) s).matched)) := by
    intro l hl
    refine foldl_invariant_mem
      (fun (s : PState) =>
        fid ∈ s.seen → (fid ∈ st0.seen ∨ ∃ sym, (fid, "di", sym) ∈ s.matched)) _ l ?_
    intro s t ht hs
    have hparamt : fid ∉ alookupD cidx t [] := hl t ht
    -- the param part cannot add fid, the di part adds fid only with a di edge
    have hstep1 : fid ∈ (addLookup recId skip "param" cidx t t s).seen →
        (fid ∈ st0.seen ∨ ∃ sym, (fid, "di", sym) ∈
          (addLookup recId skip "param" cidx t t s).matched) := by
      unfold addLookup
      cases hlk : alookup cidx t with
      | some fids =>
        have hnotin : fid ∉ fids := by
          intro hmem
          exact hparamt (by rw [alookupD, hlk]; exact hmem)
        unfold addAll
        refine foldl_invariant_mem
          (fun (s2 : PState) =>
            fid ∈ s2.seen → (fid ∈ st0.seen ∨ ∃ sym, (fid, "di", sym) ∈ s2.matched)) _ fids
          ?_ s hs
        intro s2 fid2 hfid2 hs2
        have hfid2ne : fid2 ≠ fid := fun hcontra => hnotin (hcontra ▸ hfid2)
        unfold tryAdd
        split
        · intro hmem
          rcases List.mem_append.mp hmem with hm | hm
          · rcases hs2 hm with h0 | ⟨sym, hsym⟩
            · exact Or.inl h0
            · exact Or.inr ⟨sym, List.mem_append_left _ hsym⟩
          · exact absurd (List.mem_singleton.mp hm).symm hfid2ne
        · intro hmem
          exact hs2 hmem
      | none => exact hs
    cases alookup di t with
    | some impls =>
      refine foldl_invariant
        (fun (s2 : PState) =>
          fid ∈ s2.seen → (fid ∈ st0.seen ∨ ∃ sym, (fid, "di", sym) ∈ s2.matched)) _
        ?_ impls _ hstep1
      intro s2 impl hs2
      unfold addLookup
      cases alookup cidx impl with
      | some fids2 =>
        unfold addAll
        refine foldl_invariant
          (fun (s3 : PState) =>
            fid ∈ s3.seen → (fid ∈ st0.seen ∨ ∃ sym, (fid, "di", sym) ∈ s3.matched)) _
          ?_ fids2 s2 hs2
        intro s3 fid3 hs3
        unfold tryAdd
        split
        · intro hmem
          rcases List.mem_append.mp hmem with hm | hm
          · rcases hs3 hm with h0 | ⟨sym, hsym⟩
            · exact Or.inl h0
            · exact Or.inr ⟨sym, List.mem_append_left _ hsym⟩
          · refine Or.inr ⟨t ++ "->" ++ impl, List.mem_append_right _ ?_⟩
            rw [List.mem_singleton.mp hm]
            exact List.mem_singleton_self _
        · intro hmem
          exact hs3 hmem
      | none => exact hs2
    | none => exact hstep1
  intro hseen
  exact key params hparam st0 (fun h0 => Or.inl h0) hseen

/-- `stage2` only appends to the edge list. -/
theorem stage2_matched_mono (recId : Nat) (skip : Nat → Bool) (cidx : List (String × List Nat))
    (new_types : List String) (st0 : PState) (e : Nat × String × String)
    (h : e ∈ st0.matched) : e ∈ (stage2 recId skip cidx new_types st0).matched := by
  unfold stage2
  exact foldl_invariant (fun (s : PState) => e ∈ s.matched) _
    (fun s tn hs => addLookup_matched_mono recId skip "new" cidx tn tn s e hs) new_types st0 h

/-- `stage3` only appends to the edge list. -/
theorem stage3_matched_mono (recId : Nat) (skip : Nat → Bool)
    (cidx method_idx : List (String × List Nat)) (var_map : List (String × String))
    (invs : List (String × String)) (st0 : PState) (e : Nat × String × String)
    (h : e ∈ st0.matched) :
    e ∈ (stage3 recId skip cidx method_idx var_map invs st0).matched := by
  unfold stage3
  refine foldl_invariant (fun (s : PState) => e ∈ s.matched) _ ?_ invs st0 h
  intro s inv hs
  have hq : ∀ (s1 : PState) (q : String), e ∈ s1.matched →
      e ∈ (if q ≠ "" ∧ headIs Char.isUpper q = true then
        addLookup recId skip "qualifier" cidx q q s1 else s1).matched := by
    intro s1 q h1
    split
    · exact addLookup_matched_mono recId skip "qualifier" cidx q q s1 e h1
    · exact h1
  refine foldl_invariant (fun (s2 : PState) => e ∈ s2.matched) _ ?_ _ _
    (addLookup_matched_mono recId skip "method" method_idx _ _ _ e (hq s _ hs))
  intro s2 a h2
  cases alookup var_map a with
  | some t => exact addLookup_matched_mono recId skip "argvar" cidx t t s2 e h2
  | none => exact h2

/-- `stage4` only appends to the edge list. -/
theorem stage4_matched_mono (strict noUsingOnly : Bool) (recId : Nat) (excl : List String)
    (records_g : List SrcRec) (ns_to_ids : List (String × List Nat))
    (usings : List String) (st0 : PState) (e : Nat × String × String)
    (h : e ∈ st0.matched) :
    e ∈ (stage4 strict noUsingOnly recId excl records_g ns_to_ids usings st0).matched := by
  unfold stage4
  refine foldl_invariant (fun (s : PState) => e ∈ s.matched) _ ?_ _ st0 h
  intro s c hs
  split
  · exact List.mem_append_left _ hs
  · exact hs

/-- `stage5` only appends to the edge list. -/
theorem stage5_matched_mono (recId : Nat) (skip : Nat → Bool) (cidx : List (String × List Nat))
    (records_g : List SrcRec) (params new_types : List String) (st0 : PState)
    (e : Nat × String × String) (h : e ∈ st0.matched) :
    e ∈ (stage5 recId skip cidx records_g params new_types st0).matched := by
  unfold stage5
  refine foldl_invariant (fun (s : PState) => e ∈ s.matched) _ ?_ _ st0 h
  intro s t hs
  cases alookup cidx t with
  | some _ => exact hs
  | none =>
    refine foldl_invariant (fun (s2 : PState) => e ∈ s2.matched) _ ?_ records_g s hs
    intro s2 r h2
    split
    · exact tryAdd_matched_mono recId skip r.id "filename" t s2 e h2
    · exact h2

/-- Claim C6.  DI widening: if the registration map binds interface name
`iface` to implementation name `impl`, then for every record whose
parameter/field type evidence contains `iface`, resolution emits an edge
with reason `di` to every file declaring `impl` — provided the target is
not the record itself, not excluded, and not resolvable from any
parameter type directly (so it is not already matched by the `param`
heuristic) — independently of which file declares `iface` (no hypothesis
constrains `iface`'s own declaring file). -/
theorem claim6_di_widening (strict noUsingOnly : Bool) (excl : List String)
    (records_g : List SrcRec) (rec : SrcRec)
    (class_idx method_idx : List (String × List Nat))
    (di_map : List (String × List String)) (ns_to_ids : List (String × List Nat))
    (iface impl : String) (impls : List String) (fids : List Nat) (fid : Nat)
    (hiface : iface ∈ rec.param_field_types)
    (hdi : alookup di_map iface = some impls) (himpl : impl ∈ impls)
    (hcls : alookup class_idx impl = some fids) (hfid : fid ∈ fids)
    (hne : fid ≠ rec.id)
    (hskip : should_skip_target excl records_g fid = false)
    (hparam : ∀ t ∈ rec.param_field_types, fid ∉ alookupD class_idx t []) :
    ∃ sym, (fid, "di", sym) ∈
      (process_record_imports strict noUsingOnly excl records_g rec class_idx method_idx
        di_map ns_to_ids).2.2 := by
  unfold process_record_imports
  have hseen : fid ∈ (stage1 rec.id (should_skip_target excl records_g) class_idx di_map
      rec.param_field_types ⟨[], []⟩).seen :=
    stage1_reach rec.id _ class_idx di_map rec.param_field_types ⟨[], []⟩
      iface impl impls fids fid hiface hdi himpl hcls hfid hne hskip
  have hedge := stage1_seen_implies_di rec.id (should_skip_target excl records_g)
    class_idx di_map rec.param_field_types ⟨[], []⟩ fid hparam hseen
  rcases hedge with h0 | ⟨sym, hsym⟩
  · exact absurd h0 (List.not_mem_nil fid)
  · refine ⟨sym, ?_⟩
    refine stage5_matched_mono _ _ _ _ _ _ _ _ ?_
    refine stage4_matched_mono _ _ _ _ _ _ _ _ _ ?_
    refine stage3_matched_mono _ _ _ _ _ _ _ _ ?_
    exact stage2_matched_mono _ _ _ _ _ _ hsym

/-- Witness for claim C6 at a concrete input: the registration `IFoo → Foo`
widens the parameter reference `IFoo` of record 1 to an edge to file 2,
the declarer of `Foo`, with reason `di`. -/
theorem claim6_witness :
    ∃ sym, (2, "di", sym) ∈ (process_record_imports false false [] []
      ⟨1, "proj/A.cs", "A.cs", [], [], "", [], ["IFoo"], [], []⟩
      [("Foo", [2])] [] [("IFoo", ["Foo"])] []).2.2 :=
  claim6_di_widening false false [] []
    ⟨1, "proj/A.cs", "A.cs", [], [], "", [], ["IFoo"], [], []⟩
    [("Foo", [2])] [] [("IFoo", ["Foo"])] []
    "IFoo" "Foo" ["Foo"] [2] 2 (by decide) (by decide) (by decide) (by decide) (by decide)
    (by decide) (by decide) (by decide)

end AstConv
